import Mathlib

/-!
Verification development for the rsdu disk-usage analyzer.

The definitions below are a shallow embedding of the program's core
(src/model.rs and src/scanner.rs).  Filesystem I/O is modelled by a pure
tree `FSObj` describing what the kernel would answer for every object of
the scanned subtree: `meta` is the result of `fs::metadata`/`symlink_metadata`
(`Except.error e` modelling an io error with message `e`), `readDirErr`
models a failing `fs::read_dir` on a directory, `cacheTag` models the
existence of a `CACHEDIR.TAG` file inside a directory.  Names and paths are
modelled as `String` (valid text; `OsString` byte order coincides with the
codepoint order used here on valid UTF-8).  Machine integers (`u64`, `u32`)
are modelled as `Nat`; the only place the source's arithmetic can reach the
representation bound is `extract_number`, whose saturating `u64` operations
are modelled by explicit `min _ U64MAX`.  Glob patterns are abstracted as
`String → Bool` predicates (only `glob::Pattern::matches` is relevant to the
scanner).  The scan is embedded in its sequential form (the source's
`config.threads <= 1` branch); the parallel branch performs the same
per-entry computation with the hardlink registry under a mutex.
`generate_entry_id`'s global counter and the `ScanStats` atomic counters are
threaded through `ScanState`.  Progress reporting (a best-effort channel
send) has no effect on the produced tree and is omitted.
-/

set_option linter.unusedVariables false

namespace Rsdu

/-- EntryType from src/model.rs: classification of a filesystem object. -/
inductive EntryType where
  | Directory
  | File
  | Symlink
  | Hardlink
  | Special
  | Error
  | Excluded
  | OtherFs
  | KernelFs
deriving DecidableEq, Repr

/-- EntryType::is_directory from src/model.rs. -/
def EntryType.is_directory : EntryType → Bool
  | .Directory => true
  | .OtherFs => true
  | .KernelFs => true
  | _ => false

/-- ExtendedInfo from src/model.rs (mtime modelled as a Unix timestamp). -/
structure ExtendedInfo where
  mtime : Option Int
  uid : Option Nat
  gid : Option Nat
  mode : Option Nat
deriving DecidableEq, Repr

/-- Entry from src/model.rs.  The `parent` field (a weak back reference,
never set by the scanner: `Entry::new` and `Entry::error` both leave it
`None`) is omitted.  `name` is a `String`; the source stores an `OsString`
and the claims under study restrict attention to names that are valid
text. -/
inductive Entry where
  | mk (id : Nat) (entry_type : EntryType) (name : String) (size : Nat) (blocks : Nat)
      (device : Nat) (inode : Nat) (nlink : Nat) (extended : Option ExtendedInfo)
      (error : Option String) (children : List Entry)

/-- Field accessor for Entry.id. -/
def Entry.id : Entry → Nat
  | .mk i _ _ _ _ _ _ _ _ _ _ => i

/-- Field accessor for Entry.entry_type. -/
def Entry.entry_type : Entry → EntryType
  | .mk _ t _ _ _ _ _ _ _ _ _ => t

/-- Field accessor for Entry.name. -/
def Entry.name : Entry → String
  | .mk _ _ n _ _ _ _ _ _ _ _ => n

/-- Field accessor for Entry.size. -/
def Entry.size : Entry → Nat
  | .mk _ _ _ s _ _ _ _ _ _ _ => s

/-- Field accessor for Entry.blocks. -/
def Entry.blocks : Entry → Nat
  | .mk _ _ _ _ b _ _ _ _ _ _ => b

/-- Field accessor for Entry.device. -/
def Entry.device : Entry → Nat
  | .mk _ _ _ _ _ d _ _ _ _ _ => d

/-- Field accessor for Entry.inode. -/
def Entry.inode : Entry → Nat
  | .mk _ _ _ _ _ _ i _ _ _ _ => i

/-- Field accessor for Entry.nlink. -/
def Entry.nlink : Entry → Nat
  | .mk _ _ _ _ _ _ _ l _ _ _ => l

/-- Field accessor for Entry.extended. -/
def Entry.extended : Entry → Option ExtendedInfo
  | .mk _ _ _ _ _ _ _ _ e _ _ => e

/-- Field accessor for Entry.error. -/
def Entry.error : Entry → Option String
  | .mk _ _ _ _ _ _ _ _ _ e _ => e

/-- Field accessor for Entry.children. -/
def Entry.children : Entry → List Entry
  | .mk _ _ _ _ _ _ _ _ _ _ c => c

/-- Functional update of entry_type (models `entry.entry_type = t`). -/
def Entry.withType (e : Entry) (t : EntryType) : Entry :=
  match e with
  | .mk i _ n s b d ino l ex er ch => .mk i t n s b d ino l ex er ch

/-- Functional update of extended (models `entry.extended = x`). -/
def Entry.withExtended (e : Entry) (x : Option ExtendedInfo) : Entry :=
  match e with
  | .mk i t n s b d ino l _ er ch => .mk i t n s b d ino l x er ch

/-- Functional update of error (models `entry.error = x`). -/
def Entry.withError (e : Entry) (x : Option String) : Entry :=
  match e with
  | .mk i t n s b d ino l ex _ ch => .mk i t n s b d ino l ex x ch

/-- Functional update of children (models pushing the scanned children). -/
def Entry.withChildren (e : Entry) (c : List Entry) : Entry :=
  match e with
  | .mk i t n s b d ino l ex er _ => .mk i t n s b d ino l ex er c

/-- Entry::new from src/model.rs. -/
def Entry.new (id : Nat) (entry_type : EntryType) (name : String) (size blocks device inode nlink : Nat) : Entry :=
  .mk id entry_type name size blocks device inode nlink none none []

/-- Entry::error from src/model.rs (the constructor of an Error entry; named
`errorEntry` here because `Entry.error` is taken by the field accessor). -/
def Entry.errorEntry (id : Nat) (name : String) (msg : String) : Entry :=
  .mk id .Error name 0 0 0 0 0 none (some msg) []

/-- SerializableEntry from src/model.rs. -/
inductive SerializableEntry where
  | mk (id : Nat) (entry_type : EntryType) (name : String) (size : Nat) (blocks : Nat)
      (device : Nat) (inode : Nat) (nlink : Nat) (extended : Option ExtendedInfo)
      (error : Option String) (children : List SerializableEntry)

mutual

/-- Entry::to_serializable from src/model.rs (`to_string_lossy` on a valid
text name is the identity). -/
def Entry.to_serializable : Entry → SerializableEntry
  | .mk i t n s b d ino l ex er ch => .mk i t n s b d ino l ex er (toSerializableList ch)

/-- Children part of Entry::to_serializable. -/
def toSerializableList : List Entry → List SerializableEntry
  | [] => []
  | e :: es => e.to_serializable :: toSerializableList es

end

mutual

/-- Entry::from_serializable from src/model.rs: rebuilds the entry with
`Entry::new`, then sets `extended`, `error` and the converted children
(`parent` stays `None`). -/
def Entry.from_serializable : SerializableEntry → Entry
  | .mk i t n s b d ino l ex er ch => .mk i t n s b d ino l ex er (fromSerializableList ch)

/-- Children part of Entry::from_serializable. -/
def fromSerializableList : List SerializableEntry → List Entry
  | [] => []
  | s :: ss => Entry.from_serializable s :: fromSerializableList ss

end

mutual

/-- Entry::total_size from src/model.rs (also scanner.rs
`calculate_total_entry_size`, which is the same recursion). -/
def Entry.total_size : Entry → Nat
  | .mk _ _ _ s _ _ _ _ _ _ ch => s + totalSizeList ch

/-- Sum of total_size over a list of children. -/
def totalSizeList : List Entry → Nat
  | [] => 0
  | e :: es => e.total_size + totalSizeList es

end

mutual

/-- Entry::total_blocks from src/model.rs (also scanner.rs
`calculate_total_entry_blocks`). -/
def Entry.total_blocks : Entry → Nat
  | .mk _ _ _ _ b _ _ _ _ _ ch => b + totalBlocksList ch

/-- Sum of total_blocks over a list of children. -/
def totalBlocksList : List Entry → Nat
  | [] => 0
  | e :: es => e.total_blocks + totalBlocksList es

end

mutual

/-- Entry::total_items from src/model.rs (also scanner.rs
`calculate_total_entry_items`). -/
def Entry.total_items : Entry → Nat
  | .mk _ _ _ _ _ _ _ _ _ _ ch => 1 + totalItemsList ch

/-- Sum of total_items over a list of children. -/
def totalItemsList : List Entry → Nat
  | [] => 0
  | e :: es => e.total_items + totalItemsList es

end

mutual

/-- All nodes of the subtree rooted at an entry (the entry itself first). -/
def Entry.nodes : Entry → List Entry
  | .mk i t n s b d ino l ex er ch => .mk i t n s b d ino l ex er ch :: nodesList ch

/-- All nodes of a forest. -/
def nodesList : List Entry → List Entry
  | [] => []
  | e :: es => e.nodes ++ nodesList es

end

/-- HardlinkKey from src/model.rs: the (device, inode) identity of an
on-disk object. -/
structure HardlinkKey where
  device : Nat
  inode : Nat
deriving DecidableEq, Repr

/-- HardlinkInfo from src/model.rs. -/
structure HardlinkInfo where
  total_links : Nat
  links_in_tree : Nat
  size : Nat
  blocks : Nat
  first_entry : Entry

/-- HardlinkMap from src/model.rs, a `HashMap<HardlinkKey, HardlinkInfo>`
modelled as an association list with unique keys. -/
abbrev HardlinkMap := List (HardlinkKey × HardlinkInfo)

/-- HashMap::get on the hardlink map. -/
def hmGet : HardlinkMap → HardlinkKey → Option HardlinkInfo
  | [], _ => none
  | (k', v) :: rest, k => if k' = k then some v else hmGet rest k

/-- HashMap::insert of a fresh key (scan_entry only inserts keys that are
absent). -/
def hmInsert (m : HardlinkMap) (k : HardlinkKey) (v : HardlinkInfo) : HardlinkMap :=
  (k, v) :: m

/-- The `info.links_in_tree += 1` update performed through
`HashMap::get_mut` in scan_entry. -/
def hmBump : HardlinkMap → HardlinkKey → HardlinkMap
  | [], _ => []
  | (k', v) :: rest, k =>
      if k' = k then (k', { v with links_in_tree := v.links_in_tree + 1 }) :: rest
      else (k', v) :: hmBump rest k

mutual

/-- Entry::shared_size from src/model.rs: own size when this inode is
hardlinked and has links outside the scanned tree, plus the children's
shared sizes. -/
def Entry.shared_size (hm : HardlinkMap) : Entry → Nat
  | .mk _ _ _ s _ d ino l _ _ ch =>
      (if 1 < l then
        match hmGet hm ⟨d, ino⟩ with
        | some info => if info.links_in_tree < info.total_links then s else 0
        | none => 0
      else 0) + sharedSizeList hm ch

/-- Sum of shared_size over a list of children. -/
def sharedSizeList (hm : HardlinkMap) : List Entry → Nat
  | [] => 0
  | e :: es => e.shared_size hm + sharedSizeList hm es

end

mutual

/-- Entry::shared_blocks from src/model.rs. -/
def Entry.shared_blocks (hm : HardlinkMap) : Entry → Nat
  | .mk _ _ _ _ b d ino l _ _ ch =>
      (if 1 < l then
        match hmGet hm ⟨d, ino⟩ with
        | some info => if info.links_in_tree < info.total_links then b else 0
        | none => 0
      else 0) + sharedBlocksList hm ch

/-- Sum of shared_blocks over a list of children. -/
def sharedBlocksList (hm : HardlinkMap) : List Entry → Nat
  | [] => 0
  | e :: es => e.shared_blocks hm + sharedBlocksList hm es

end

/-- SortColumn from src/model.rs (the scanner's config::SortColumn has the
same five variants and scan converts between them one-to-one). -/
inductive SortColumn where
  | Name
  | Blocks
  | Size
  | Items
  | Mtime
deriving DecidableEq, Repr

/-- SortOrder from src/model.rs. -/
inductive SortOrder where
  | Asc
  | Desc
deriving DecidableEq, Repr

/-- Comparison of Unicode scalar values; `char::cmp` in Rust.  On valid
UTF-8 this order coincides with byte order of the encodings. -/
def cmpChar (a b : Char) : Ordering :=
  compare a.toNat b.toNat

/-- Lexicographic comparison of character lists; `OsString::cmp` (byte
lexicographic) restricted to valid text. -/
def cmpCharList : List Char → List Char → Ordering
  | [], [] => .eq
  | [], _ :: _ => .lt
  | _ :: _, [] => .gt
  | a :: as, b :: bs =>
      match cmpChar a b with
      | .eq => cmpCharList as bs
      | o => o

/-- `a.name.cmp(&b.name)` on OsString, for valid text names. -/
def osstr_cmp (a b : String) : Ordering :=
  cmpCharList a.data b.data

/-- Comparison of `Option<DateTime>`: `None` sorts before `Some`. -/
def cmpOptionInt : Option Int → Option Int → Ordering
  | none, none => .eq
  | none, some _ => .lt
  | some _, none => .gt
  | some a, some b => compare a b

/-- Ordering::reverse / the Asc-Desc switch at the end of both comparators. -/
def applySortOrder : SortOrder → Ordering → Ordering
  | .Asc, c => c
  | .Desc, c => c.swap

/-- is_ascii_digit from Rust: `'0' ..= '9'`. -/
def isAsciiDigit (c : Char) : Bool :=
  decide (48 ≤ c.toNat) && decide (c.toNat ≤ 57)

/-- `ch.to_digit(10)` on an ASCII digit. -/
def digitVal (c : Char) : Nat :=
  c.toNat - 48

/-- u64::MAX, the saturation bound of the source's saturating arithmetic. -/
def U64MAX : Nat := 2 ^ 64 - 1

/-- u64::saturating_add. -/
def satAdd (a b : Nat) : Nat := min (a + b) U64MAX

/-- u64::saturating_mul. -/
def satMul (a b : Nat) : Nat := min (a * b) U64MAX

/-- Loop of extract_number from src/scanner.rs: consume leading ASCII
digits, accumulating `num = num.saturating_mul(10).saturating_add(digit)`. -/
def extract_number_go (num : Nat) : List Char → Nat × List Char
  | [] => (num, [])
  | c :: cs =>
      if isAsciiDigit c then extract_number_go (satAdd (satMul num 10) (digitVal c)) cs
      else (num, c :: cs)

/-- extract_number from src/scanner.rs: the accumulated value together with
the remaining characters (the iterator after consumption). -/
def extract_number (s : List Char) : Nat × List Char :=
  extract_number_go 0 s

/-- natural_sort from src/scanner.rs, on the character sequences of the two
strings: runs of ASCII digits are extracted and compared numerically,
everything else character by character. -/
def natural_sort_chars (x y : List Char) : Ordering :=
  match x, y with
  | [], [] => .eq
  | [], _ :: _ => .lt
  | _ :: _, [] => .gt
  | a :: as, b :: bs =>
      if isAsciiDigit a && isAsciiDigit b then
        let ra := extract_number (a :: as)
        let rb := extract_number (b :: bs)
        match compare ra.1 rb.1 with
        | .eq => natural_sort_chars ra.2 rb.2
        | o => o
      else
        match cmpChar a b with
        | .eq => natural_sort_chars as bs
        | o => o
termination_by x.length + y.length
decreasing_by
  · have go_len : ∀ (l : List Char) (n : Nat), (extract_number_go n l).2.length ≤ l.length := by
      intro l
      induction l with
      | nil => intro n; simp [extract_number_go]
      | cons c cs ih =>
          intro n
          rw [extract_number_go]
          by_cases hc : isAsciiDigit c = true
          · simp only [hc, if_true]
            exact le_trans (ih _) (Nat.le_succ _)
          · simp [hc]
    have hab : (isAsciiDigit a && isAsciiDigit b) = true := by assumption
    obtain ⟨ha, hb⟩ := (Bool.and_eq_true _ _).mp hab
    have la : (extract_number (a :: as)).2.length ≤ as.length := by
      rw [extract_number, extract_number_go]
      simp only [ha, if_true]
      exact go_len _ _
    have lb : (extract_number (b :: bs)).2.length ≤ bs.length := by
      rw [extract_number, extract_number_go]
      simp only [hb, if_true]
      exact go_len _ _
    simp only [List.length_cons]
    omega
  · simp only [List.length_cons]
    omega

/-- natural_sort from src/scanner.rs on strings (the scanner applies it to
`to_string_lossy()` of the two names). -/
def natural_sort (a b : String) : Ordering :=
  natural_sort_chars a.data b.data

/-- File type as reported by `Metadata::file_type()`:
directory / regular file / symlink / device-pipe-socket / anything else. -/
inductive FileKind where
  | dirKind
  | fileKind
  | symlinkKind
  | specialKind
  | unknownKind
deriving DecidableEq, Repr

/-- The fields of `std::fs::Metadata` consulted by the scanner
(`MetadataExt`: dev, ino, nlink, blocks, uid, gid, mode; `len`; `modified`
as a Unix timestamp when available). -/
structure Meta where
  kind : FileKind
  len : Nat
  blocks : Nat
  dev : Nat
  ino : Nat
  nlink : Nat
  mtime : Option Int
  uid : Nat
  gid : Nat
  mode : Nat
deriving DecidableEq, Repr

/-- get_entry_type from src/scanner.rs: classification by file type with
`File` as the default fallback. -/
def get_entry_type (m : Meta) : EntryType :=
  match m.kind with
  | .dirKind => .Directory
  | .fileKind => .File
  | .symlinkKind => .Symlink
  | .specialKind => .Special
  | .unknownKind => .File

/-- One filesystem object as the kernel would present it to the scanner:
its base name, the result of reading its metadata, its directory listing
(`readDirErr = some e` models `fs::read_dir` failing with message `e`, in
which case `children` is irrelevant), and whether the directory contains a
`CACHEDIR.TAG` file. -/
inductive FSObj where
  | mk (name : String) (meta : Except String Meta) (children : List FSObj)
      (readDirErr : Option String) (cacheTag : Bool)

/-- Field accessor for FSObj.name. -/
def FSObj.name : FSObj → String
  | .mk n _ _ _ _ => n

/-- Field accessor for FSObj.meta. -/
def FSObj.meta : FSObj → Except String Meta
  | .mk _ m _ _ _ => m

/-- Field accessor for FSObj.children. -/
def FSObj.children : FSObj → List FSObj
  | .mk _ _ c _ _ => c

/-- Field accessor for FSObj.readDirErr. -/
def FSObj.readDirErr : FSObj → Option String
  | .mk _ _ _ e _ => e

/-- Field accessor for FSObj.cacheTag. -/
def FSObj.cacheTag : FSObj → Bool
  | .mk _ _ _ _ t => t

mutual

/-- All filesystem objects reachable from one object through directory
listings, the object itself included. -/
def FSObj.objs : FSObj → List FSObj
  | .mk n m ch e t => .mk n m ch e t :: objsList ch

/-- All filesystem objects reachable from a listing. -/
def objsList : List FSObj → List FSObj
  | [] => []
  | o :: os => o.objs ++ objsList os

end

/-- The scanner-relevant part of Config from src/config.rs.  Compiled glob
patterns are abstracted to their `matches` predicate on the path string.
The worker-thread count is not modelled: the embedding is the sequential
(`threads <= 1`) branch of scan_directory_contents, and the parallel branch
performs the same per-child computation. -/
structure Config where
  same_fs : Bool
  follow_symlinks : Bool
  show_hidden : Bool
  exclude_patterns : List (String → Bool)
  exclude_caches : Bool
  exclude_kernfs : Bool
  extended : Bool
  sort_col : SortColumn
  sort_order : SortOrder
  sort_dirs_first : Bool
  sort_natural : Bool

/-- PSEUDO_FS from src/scanner.rs: pseudo-filesystem mount points. -/
def PSEUDO_FS : List String :=
  ["/proc", "/sys", "/dev", "/run", "/tmp", "/var/run", "/var/lock", "/var/tmp"]

/-- ScanContext from src/scanner.rs (the parts that influence the produced
tree: configuration and the root device captured for `same_fs` mode). -/
structure ScanContext where
  cfg : Config
  root_device : Option Nat

/-- ScanContext::is_excluded_by_pattern from src/scanner.rs. -/
def is_excluded_by_pattern (cfg : Config) (path : String) : Bool :=
  cfg.exclude_patterns.any fun pat => pat path

/-- ScanContext::is_different_filesystem from src/scanner.rs. -/
def is_different_filesystem (ctx : ScanContext) (device : Nat) : Bool :=
  if !ctx.cfg.same_fs then false
  else
    match ctx.root_device with
    | some rd => device != rd
    | none => false

/-- ScanContext::is_kernel_filesystem from src/scanner.rs: the path starts
with a pseudo mount point and either ends there or continues with `/`.
All PSEUDO_FS entries are ASCII, so the source's byte-based
`starts_with`/`len` and character-based `chars().nth` agree with the
character-list operations used here. -/
def is_kernel_filesystem (cfg : Config) (path : String) : Bool :=
  if !cfg.exclude_kernfs then false
  else
    PSEUDO_FS.any fun fs =>
      fs.data.isPrefixOf path.data &&
        (path.data.length == fs.data.length || path.data[fs.data.length]? == some '/')

/-- ScanContext::has_cachedir_tag from src/scanner.rs, on the modelled
`CACHEDIR.TAG` existence bit of the directory. -/
def has_cachedir_tag (cfg : Config) (cacheTag : Bool) : Bool :=
  if !cfg.exclude_caches then false else cacheTag

/-- should_include_entry from src/scanner.rs, applied to the entry's file
name. -/
def should_include_entry (cfg : Config) (file_name : String) : Bool :=
  if !cfg.show_hidden && file_name.data.head? == some '.' then false
  else if file_name == "." || file_name == ".." then false
  else true

/-- `Path::join` for the ordinary relative names produced by `read_dir`. -/
def joinPath (dir file_name : String) : String :=
  if dir.data.getLast? == some '/' then dir ++ file_name else dir ++ "/" ++ file_name

/-- The comparator closure of sort_entries from src/scanner.rs:
directories first when configured, then the configured column (Name with
optional natural order, recursively aggregated Size / Blocks / Items, or
extended mtime), finally reversed for descending order. -/
def scanner_cmp (cfg : Config) (a b : Entry) : Ordering :=
  if cfg.sort_dirs_first = true ∧ a.entry_type.is_directory ≠ b.entry_type.is_directory then
    if a.entry_type.is_directory then .lt else .gt
  else
    applySortOrder cfg.sort_order
      (match cfg.sort_col with
       | .Name =>
           if cfg.sort_natural then natural_sort a.name b.name else osstr_cmp a.name b.name
       | .Size => compare a.total_size b.total_size
       | .Blocks => compare a.total_blocks b.total_blocks
       | .Items => compare a.total_items b.total_items
       | .Mtime =>
           cmpOptionInt (a.extended.bind ExtendedInfo.mtime) (b.extended.bind ExtendedInfo.mtime))

/-- sort_entries from src/scanner.rs: a stable sort of sibling entries by
the comparator (`sort_by` keeps `a` before `b` unless the comparator says
Greater). -/
def sort_entries (cfg : Config) (entries : List Entry) : List Entry :=
  entries.mergeSort fun a b => scanner_cmp cfg a b != .gt

/-- The comparator closure of Entry::sort_children from src/model.rs.  It
has no natural-order mode: the Name column always compares the raw names. -/
def entry_cmp (sort_col : SortColumn) (sort_order : SortOrder) (dirs_first : Bool)
    (a b : Entry) : Ordering :=
  if dirs_first = true ∧ a.entry_type.is_directory ≠ b.entry_type.is_directory then
    if a.entry_type.is_directory then .lt else .gt
  else
    applySortOrder sort_order
      (match sort_col with
       | .Name => osstr_cmp a.name b.name
       | .Size => compare a.total_size b.total_size
       | .Blocks => compare a.total_blocks b.total_blocks
       | .Items => compare a.total_items b.total_items
       | .Mtime =>
           cmpOptionInt (a.extended.bind ExtendedInfo.mtime) (b.extended.bind ExtendedInfo.mtime))

/-- Entry::sort_children from src/model.rs. -/
def Entry.sort_children (e : Entry) (sort_col : SortColumn) (sort_order : SortOrder)
    (dirs_first : Bool) : Entry :=
  e.withChildren (e.children.mergeSort fun a b => entry_cmp sort_col sort_order dirs_first a b != .gt)

/-- ScanStats from src/model.rs: the six counters (updated atomically in
the source, threaded as plain state through the sequential scan here). -/
structure ScanStats where
  total_entries : Nat
  directories : Nat
  files : Nat
  errors : Nat
  total_size : Nat
  total_blocks : Nat
deriving DecidableEq, Repr

/-- The mutable scan-wide state: the entry-id generator, the statistics
counters and the hardlink registry. -/
structure ScanState where
  nextId : Nat
  stats : ScanStats
  hardlinks : HardlinkMap

mutual

/-- scan_entry from src/scanner.rs.  Processing order as in the source:
metadata acquisition (failure gives an Error leaf), filesystem-boundary /
kernel-filesystem / exclusion-pattern checks (zero-weight leaves),
classification and metric capture, hardlink resolution for files with
nlink > 1, optional extended metadata, then directory handling
(CACHEDIR.TAG reclassification to Excluded, listing failure
reclassification to Error, otherwise recursion into the included children
followed by the configured sort). -/
def scan_entry (ctx : ScanContext) (path : String) (o : FSObj) (st : ScanState) :
    Entry × ScanState :=
  match o with
  | .mk oname ometa ochildren oreadDirErr ocacheTag =>
    match ometa with
    | .error e =>
        (Entry.errorEntry st.nextId oname ("Cannot read metadata: " ++ e),
         { st with nextId := st.nextId + 1,
                   stats := { st.stats with errors := st.stats.errors + 1 } })
    | .ok m =>
        if is_different_filesystem ctx m.dev then
          (Entry.new st.nextId .OtherFs oname 0 0 m.dev m.ino m.nlink,
           { st with nextId := st.nextId + 1 })
        else if is_kernel_filesystem ctx.cfg path then
          (Entry.new st.nextId .KernelFs oname 0 0 m.dev m.ino m.nlink,
           { st with nextId := st.nextId + 1 })
        else if is_excluded_by_pattern ctx.cfg path then
          (Entry.new st.nextId .Excluded oname 0 0 m.dev m.ino m.nlink,
           { st with nextId := st.nextId + 1 })
        else
          let file_type := get_entry_type m
          let st1 : ScanState :=
            { st with nextId := st.nextId + 1,
                      stats := { st.stats with
                                 total_entries := st.stats.total_entries + 1,
                                 total_size := st.stats.total_size + m.len,
                                 total_blocks := st.stats.total_blocks + m.blocks } }
          let entry0 := Entry.new st.nextId file_type oname m.len m.blocks m.dev m.ino m.nlink
          let hlRes : Entry × HardlinkMap :=
            if 1 < m.nlink ∧ file_type = .File then
              match hmGet st1.hardlinks ⟨m.dev, m.ino⟩ with
              | some _ => (entry0.withType .Hardlink, hmBump st1.hardlinks ⟨m.dev, m.ino⟩)
              | none =>
                  (entry0, hmInsert st1.hardlinks ⟨m.dev, m.ino⟩ ⟨m.nlink, 1, m.len, m.blocks, entry0⟩)
            else (entry0, st1.hardlinks)
          let st2 := { st1 with hardlinks := hlRes.2 }
          let entry2 :=
            if ctx.cfg.extended then
              hlRes.1.withExtended (some ⟨m.mtime, some m.uid, some m.gid, some m.mode⟩)
            else hlRes.1
          if file_type = .Directory then
            let st3 := { st2 with stats := { st2.stats with directories := st2.stats.directories + 1 } }
            if has_cachedir_tag ctx.cfg ocacheTag then
              (entry2.withType .Excluded, st3)
            else
              match oreadDirErr with
              | some e =>
                  ((entry2.withError (some ("Error scanning directory: " ++ e))).withType .Error,
                   { st3 with stats := { st3.stats with errors := st3.stats.errors + 1 } })
              | none =>
                  let r := scan_children ctx path ochildren st3
                  (entry2.withChildren (sort_entries ctx.cfg r.1), r.2)
          else
            (entry2, { st2 with stats := { st2.stats with files := st2.stats.files + 1 } })

/-- The sequential loop of scan_directory_contents from src/scanner.rs:
each listed child passing should_include_entry is scanned at
`dir_path.join(name)` with the state threaded left to right. -/
def scan_children (ctx : ScanContext) (dirPath : String) (objs : List FSObj) (st : ScanState) :
    List Entry × ScanState :=
  match objs with
  | [] => ([], st)
  | c :: cs =>
      if should_include_entry ctx.cfg c.name then
        let r1 := scan_entry ctx (joinPath dirPath c.name) c st
        let r2 := scan_children ctx dirPath cs r1.2
        (r1.1 :: r2.1, r2.2)
      else scan_children ctx dirPath cs st

end

/-- The initial scan state: entry ids start at 1 (NEXT_ENTRY_ID), all
counters zero, empty hardlink registry. -/
def initState : ScanState :=
  ⟨1, ⟨0, 0, 0, 0, 0, 0⟩, []⟩

/-- scan_directory_with_progress from src/scanner.rs: in `same_fs` mode the
root metadata is read first to capture the root device, and a failure there
is the only way the function returns an error (`scan_entry` itself always
returns `Ok`); otherwise the root is scanned with an empty context.
Progress messages do not affect the result and are omitted.  The final
`ScanState` is returned alongside the tree so that the statistics and the
hardlink registry can be inspected. -/
def scan_directory_with_progress (path : String) (cfg : Config) (root : FSObj) :
    Except String (Entry × ScanState) :=
  if cfg.same_fs then
    match root.meta with
    | .error e => .error ("Cannot read root directory metadata: " ++ e)
    | .ok m => .ok (scan_entry ⟨cfg, some m.dev⟩ path root initState)
  else
    .ok (scan_entry ⟨cfg, none⟩ path root initState)

/-- scan_directory from src/scanner.rs. -/
def scan_directory (path : String) (cfg : Config) (root : FSObj) :
    Except String (Entry × ScanState) :=
  scan_directory_with_progress path cfg root

/-! Specification-side definitions: these follow the words of the
specification and of the claims, to be compared with the source-derived
definitions above. -/

/-- Exact (unbounded) numeric value of a digit string, most significant
digit first.  Specification-side companion of extract_number. -/
def digitsToNat (ds : List Char) : Nat :=
  ds.foldl (fun n c => 10 * n + digitVal c) 0

/-- A token of the natural order: a maximal ASCII digit run (kept as its
saturated value) or a single non-digit character.  Proof device for the
analysis of natural_sort. -/
inductive NTok where
  | num (v : Nat)
  | ch (c : Char)

/-- Comparison of natural-order tokens.  A digit is below a non-digit
character exactly when that character's code point is below 48 (the code
points 48-57 are precisely the ASCII digits). -/
def cmpTok : NTok → NTok → Ordering
  | .num a, .num b => compare a b
  | .num _, .ch c => if c.toNat < 48 then .gt else .lt
  | .ch c, .num _ => if c.toNat < 48 then .lt else .gt
  | .ch a, .ch b => cmpChar a b

/-- Lexicographic comparison of token lists by a token comparator. -/
def lexCmp (f : NTok → NTok → Ordering) : List NTok → List NTok → Ordering
  | [], [] => .eq
  | [], _ :: _ => .lt
  | _ :: _, [] => .gt
  | a :: as, b :: bs =>
      match f a b with
      | .eq => lexCmp f as bs
      | o => o

/-- One-pass tokenizer: `acc` is the saturated value of the digit run in
progress. -/
def tokenizeGo (acc : Option Nat) : List Char → List NTok
  | [] =>
      match acc with
      | some v => [.num v]
      | none => []
  | c :: cs =>
      if isAsciiDigit c then
        tokenizeGo (some (satAdd (satMul (acc.getD 0) 10) (digitVal c))) cs
      else
        match acc with
        | some v => .num v :: .ch c :: tokenizeGo none cs
        | none => .ch c :: tokenizeGo none cs

/-- Token form of a string: maximal digit runs become saturated numbers,
other characters stand alone. -/
def tokenize (s : List Char) : List NTok :=
  tokenizeGo none s

/-- Number of nodes in a forest that carry the given (device, inode) key
and the File classification. -/
def keyFileCount (k : HardlinkKey) (l : List Entry) : Nat :=
  (l.filter fun n => decide (n.device = k.device ∧ n.inode = k.inode ∧ n.entry_type = .File)).length

/-- Filesystem-consistency at one object for a key: if the object's
metadata is readable and carries the key's (device, inode), the object is a
regular file with more than one hard link.  This is how a real filesystem
behaves for a hard-linked inode (every directory entry of the inode reports
the same file type and link count). -/
def keyConsistentObj (k : HardlinkKey) (o : FSObj) : Bool :=
  match o.meta with
  | .ok m =>
      !(m.dev == k.device && m.ino == k.inode) ||
        (decide (get_entry_type m = .File) && decide (1 < m.nlink))
  | .error _ => true

/-- The claim's criterion for a node contributing to shared totals: the
node's link count exceeds one and the registry knows its key with strictly
more total links than links found in the tree. -/
def is_shared_node (hm : HardlinkMap) (n : Entry) : Bool :=
  decide (1 < n.nlink) &&
    match hmGet hm ⟨n.device, n.inode⟩ with
    | some info => decide (info.links_in_tree < info.total_links)
    | none => false

/-- Specification-side shared size: the sum of the own sizes of all shared
nodes of the subtree. -/
def shared_size_spec (hm : HardlinkMap) (e : Entry) : Nat :=
  ((e.nodes.filter (is_shared_node hm)).map Entry.size).sum

/-- Specification-side shared blocks. -/
def shared_blocks_spec (hm : HardlinkMap) (e : Entry) : Nat :=
  ((e.nodes.filter (is_shared_node hm)).map Entry.blocks).sum

/-! Concrete example objects used by witnesses and counterexamples. -/

/-- A configuration with every filter off: no same-fs restriction, hidden
files shown, no exclude patterns, no cache or kernel-fs exclusion, no
extended metadata, byte-order name sort ascending. -/
def cfgAllOff : Config :=
  ⟨false, false, true, [], false, false, false, .Name, .Asc, false, false⟩

/-- cfgAllOff with kernel-filesystem exclusion enabled. -/
def cfgKernOn : Config :=
  { cfgAllOff with exclude_kernfs := true }

/-- cfgAllOff with cache-directory exclusion enabled. -/
def cfgCacheOn : Config :=
  { cfgAllOff with exclude_caches := true }

/-- cfgAllOff with the same-filesystem restriction enabled. -/
def cfgSameFs : Config :=
  { cfgAllOff with same_fs := true }

/-- cfgAllOff with natural name sorting enabled. -/
def cfgNatural : Config :=
  { cfgAllOff with sort_natural := true }

/-- Metadata of a small regular file. -/
def metaFile : Meta := ⟨.fileKind, 5, 8, 7, 100, 1, none, 0, 0, 0⟩

/-- Metadata of a regular file with two hard links, inode 42 on device 7. -/
def metaHardlink : Meta := ⟨.fileKind, 5, 8, 7, 42, 2, none, 0, 0, 0⟩

/-- Metadata of a directory (a directory's apparent size is typically one
filesystem block, 4096 bytes here). -/
def metaDir : Meta := ⟨.dirKind, 4096, 8, 7, 1, 2, none, 0, 0, 0⟩

/-- A directory whose metadata reads fine but which contains a CACHEDIR.TAG
marker file. -/
def fsCacheDir : FSObj := .mk "cache" (.ok metaDir) [] none true

/-- A directory whose listing fails with a permission error. -/
def fsBadListDir : FSObj := .mk "locked" (.ok metaDir) [] (some "Permission denied (os error 13)") false

/-- An object whose metadata cannot be read. -/
def fsBadMeta : FSObj := .mk "gone" (.error "No such file or directory (os error 2)") [] none false

/-- A plain readable file object. -/
def fsFileA : FSObj := .mk "a.txt" (.ok metaFile) [] none false

/-- The entry produced by scanning fsFileA from the initial state. -/
def entryFileA : Entry := .mk 1 .File "a.txt" 5 8 7 100 1 none none []

/-- The scan state after scanning fsFileA from the initial state. -/
def stFileA : ScanState := ⟨2, ⟨1, 0, 1, 0, 5, 8⟩, []⟩

/-- A directory object placed at a pseudo-filesystem mount point. -/
def fsProcDir : FSObj := .mk "proc" (.ok metaDir) [] none false

/-- An entry named "file2". -/
def eFile2 : Entry := .mk 1 .File "file2" 0 0 0 0 1 none none []

/-- An entry named "file10". -/
def eFile10 : Entry := .mk 2 .File "file10" 0 0 0 0 1 none none []

/-- Two names for the same hard-linked inode. -/
def fsHard1 : FSObj := .mk "first" (.ok metaHardlink) [] none false

/-- Second name of the hard-linked inode. -/
def fsHard2 : FSObj := .mk "second" (.ok metaHardlink) [] none false

/-- A directory containing the hard-linked pair. -/
def fsHardDir : FSObj := .mk "root" (.ok metaDir) [fsHard1, fsHard2] none false

/-- The (device, inode) key of the hard-linked inode. -/
def kHL : HardlinkKey := ⟨7, 42⟩

/-- The entry produced by scanning fsHard1 from the initial state. -/
def entryHard1 : Entry := .mk 1 .File "first" 5 8 7 42 2 none none []

/-- The scan state after scanning fsHard1 from the initial state: the key
is registered with total_links 2 and links_in_tree 1. -/
def stHard1 : ScanState := ⟨2, ⟨1, 0, 1, 0, 5, 8⟩, [(⟨7, 42⟩, ⟨2, 1, 5, 8, entryHard1⟩)]⟩

/-! Theorems. -/

attribute [simp] Entry.id Entry.entry_type Entry.name Entry.size Entry.blocks Entry.device
  Entry.inode Entry.nlink Entry.extended Entry.error Entry.children
  Entry.withType Entry.withExtended Entry.withError Entry.withChildren
  Entry.new Entry.errorEntry
  FSObj.name FSObj.meta FSObj.children FSObj.readDirErr FSObj.cacheTag

/-- The loop of extract_number computes the saturated value of the digit
run and leaves exactly the non-digit remainder. -/
theorem extract_number_go_spec :
    ∀ (s : List Char) (e : Nat),
      extract_number_go (min e U64MAX) s =
        (min ((s.takeWhile isAsciiDigit).foldl (fun n c => 10 * n + digitVal c) e) U64MAX,
          s.dropWhile isAsciiDigit) := by
  intro s
  induction s with
  | nil => intro e; simp [extract_number_go]
  | cons c cs ih =>
      intro e
      rw [extract_number_go]
      by_cases hc : isAsciiDigit c = true
      · rw [if_pos hc]
        have h1 : satAdd (satMul (min e U64MAX) 10) (digitVal c)
            = min (10 * e + digitVal c) U64MAX := by
          simp only [satAdd, satMul]
          generalize U64MAX = M
          omega
        rw [h1, ih (10 * e + digitVal c), List.takeWhile_cons_of_pos hc,
          List.dropWhile_cons_of_pos hc]
        simp
      · rw [if_neg hc, List.takeWhile_cons_of_neg hc, List.dropWhile_cons_of_neg hc]
        simp

/-- C9: extract_number consumes the maximal leading run of ASCII digits and
returns its value computed with saturating u64 arithmetic: the result is the
exact value capped at u64::MAX (so a run whose value exceeds u64::MAX yields
exactly u64::MAX, with no wrap-around), and the rest of the input is left
untouched. -/
theorem extract_number_spec :
    ∀ s : List Char,
      extract_number s =
        (min (digitsToNat (s.takeWhile isAsciiDigit)) U64MAX, s.dropWhile isAsciiDigit) ∧
      (U64MAX < digitsToNat (s.takeWhile isAsciiDigit) → (extract_number s).1 = U64MAX) := by
  intro s
  have h := extract_number_go_spec s 0
  rw [Nat.zero_min] at h
  have hmain : extract_number s =
      (min (digitsToNat (s.takeWhile isAsciiDigit)) U64MAX, s.dropWhile isAsciiDigit) := by
    rw [extract_number, h]
    rfl
  refine ⟨hmain, fun hover => ?_⟩
  rw [hmain]
  simp only []
  omega

/-- Witness for C9: a twenty-digit run whose value exceeds u64::MAX
saturates at exactly u64::MAX. -/
theorem extract_number_spec_witness :
    U64MAX < digitsToNat (("99999999999999999999".data).takeWhile isAsciiDigit) ∧
    (extract_number "99999999999999999999".data).1 = U64MAX :=
  ⟨by decide, (extract_number_spec "99999999999999999999".data).2 (by decide)⟩

/-- Characterization of isAsciiDigit by code points. -/
theorem isAsciiDigit_iff (c : Char) :
    isAsciiDigit c = true ↔ 48 ≤ c.toNat ∧ c.toNat ≤ 57 := by
  simp [isAsciiDigit]

/-- Swapping the arguments of Nat comparison swaps the ordering. -/
theorem natCompare_swap (a b : Nat) : compare b a = (compare a b).swap := by
  rcases Nat.lt_trichotomy a b with h | h | h
  · rw [Nat.compare_eq_lt.mpr h, Nat.compare_eq_gt.mpr h]
    rfl
  · subst h
    rw [Nat.compare_eq_eq.mpr rfl]
    rfl
  · rw [Nat.compare_eq_gt.mpr h, Nat.compare_eq_lt.mpr h]
    rfl

/-- Unfolding extract_number on a leading digit. -/
theorem extract_number_cons_digit (a : Char) (as : List Char) (h : isAsciiDigit a = true) :
    extract_number (a :: as) = extract_number_go (satAdd (satMul 0 10) (digitVal a)) as := by
  rw [extract_number, extract_number_go, if_pos h]

/-- Unfolding the tokenizer on a non-digit. -/
theorem tokenize_cons_nondigit (c : Char) (cs : List Char) (h : isAsciiDigit c = false) :
    tokenize (c :: cs) = .ch c :: tokenize cs := by
  rw [tokenize, tokenizeGo, if_neg (by simp [h]), tokenize]

/-- The tokenizer inside a digit run emits the saturated value computed by
extract_number's loop followed by the tokens of the remainder. -/
theorem tokenizeGo_some (cs : List Char) :
    ∀ v : Nat, tokenizeGo (some v) cs =
      .num (extract_number_go v cs).1 :: tokenizeGo none (extract_number_go v cs).2 := by
  induction cs with
  | nil => intro v; rfl
  | cons c cs ih =>
      intro v
      cases hc : isAsciiDigit c with
      | true =>
          rw [tokenizeGo, if_pos hc, extract_number_go, if_pos hc]
          simpa using ih _
      | false =>
          rw [tokenizeGo, if_neg (by simp [hc]), extract_number_go, if_neg (by simp [hc])]
          rw [tokenizeGo, if_neg (by simp [hc])]

/-- Unfolding the tokenizer on a leading digit. -/
theorem tokenize_cons_digit (a : Char) (as : List Char) (h : isAsciiDigit a = true) :
    tokenize (a :: as) =
      .num (extract_number (a :: as)).1 :: tokenize (extract_number (a :: as)).2 := by
  rw [tokenize, tokenizeGo, if_pos h, extract_number_cons_digit a as h]
  simpa [tokenize] using tokenizeGo_some as (satAdd (satMul 0 10) (digitVal a))

/-- The token list of a nonempty string is nonempty. -/
theorem tokenize_cons_ne_nil (c : Char) (cs : List Char) : tokenize (c :: cs) ≠ [] := by
  cases hc : isAsciiDigit c with
  | true => rw [tokenize_cons_digit c cs hc]; simp
  | false => rw [tokenize_cons_nondigit c cs hc]; simp

/-- Token comparison is reflexive. -/
theorem cmpTok_refl (t : NTok) : cmpTok t t = .eq := by
  cases t with
  | num v => exact Nat.compare_eq_eq.mpr rfl
  | ch c => exact Nat.compare_eq_eq.mpr rfl

/-- Token comparison is antisymmetric in the Ordering sense. -/
theorem cmpTok_swap (t u : NTok) : cmpTok u t = (cmpTok t u).swap := by
  cases t with
  | num a =>
      cases u with
      | num b => exact natCompare_swap a b
      | ch c =>
          simp only [cmpTok]
          by_cases h : c.toNat < 48 <;> simp [h, Ordering.swap]
  | ch a =>
      cases u with
      | num b =>
          simp only [cmpTok]
          by_cases h : a.toNat < 48 <;> simp [h, Ordering.swap]
      | ch c => exact natCompare_swap a.toNat c.toNat

/-- Tokens comparing equal compare identically against every third token. -/
theorem cmpTok_eq_congr (t u : NTok) (h : cmpTok t u = .eq) (v : NTok) :
    cmpTok t v = cmpTok u v := by
  cases t with
  | num a =>
      cases u with
      | num b =>
          have hab : a = b := Nat.compare_eq_eq.mp h
          subst hab
          rfl
      | ch c =>
          exfalso
          simp only [cmpTok] at h
          by_cases hc : c.toNat < 48 <;> simp [hc] at h
  | ch a =>
      cases u with
      | num b =>
          exfalso
          simp only [cmpTok] at h
          by_cases hc : a.toNat < 48 <;> simp [hc] at h
      | ch c =>
          have hac : a.toNat = c.toNat := Nat.compare_eq_eq.mp h
          cases v with
          | num w => simp only [cmpTok, hac]
          | ch d => simp only [cmpTok, cmpChar, hac]

/-- Token comparison is transitive for strict results. -/
theorem cmpTok_lt_trans (t u v : NTok) (h1 : cmpTok t u = .lt) (h2 : cmpTok u v = .lt) :
    cmpTok t v = .lt := by
  cases t with
  | num a =>
      cases u with
      | num b =>
          have hab : a < b := Nat.compare_eq_lt.mp h1
          cases v with
          | num c =>
              have hbc : b < c := Nat.compare_eq_lt.mp h2
              exact Nat.compare_eq_lt.mpr (lt_trans hab hbc)
          | ch c =>
              simp only [cmpTok] at h2 ⊢
              by_cases hc : c.toNat < 48 <;> simp [hc] at h2 ⊢
      | ch b =>
          simp only [cmpTok] at h1
          by_cases hb : b.toNat < 48 <;> simp [hb] at h1
          cases v with
          | num c =>
              simp only [cmpTok] at h2
              by_cases hb' : b.toNat < 48 <;> simp [hb'] at h2
              omega
          | ch c =>
              have hbc : b.toNat < c.toNat := Nat.compare_eq_lt.mp h2
              simp only [cmpTok]
              have : ¬c.toNat < 48 := by omega
              simp [this]
  | ch a =>
      cases u with
      | num b =>
          simp only [cmpTok] at h1
          by_cases ha : a.toNat < 48 <;> simp [ha] at h1
          cases v with
          | num c => simp [cmpTok, ha]
          | ch c =>
              simp only [cmpTok] at h2
              by_cases hc : c.toNat < 48 <;> simp [hc] at h2
              exact Nat.compare_eq_lt.mpr (by omega)
      | ch b =>
          have hab : a.toNat < b.toNat := Nat.compare_eq_lt.mp h1
          cases v with
          | num c =>
              simp only [cmpTok] at h2 ⊢
              by_cases hb : b.toNat < 48 <;> simp [hb] at h2 ⊢
              omega
          | ch c =>
              have hbc : b.toNat < c.toNat := Nat.compare_eq_lt.mp h2
              exact Nat.compare_eq_lt.mpr (lt_trans hab hbc)

/-- Lexicographic token comparison is reflexive. -/
theorem lexCmp_refl (f : NTok → NTok → Ordering) (hrefl : ∀ t, f t t = .eq) :
    ∀ l, lexCmp f l l = .eq := by
  intro l
  induction l with
  | nil => rfl
  | cons x xs ih => rw [lexCmp, hrefl x, ih]

/-- Swapping the arguments of lexicographic comparison swaps the result. -/
theorem lexCmp_swap (f : NTok → NTok → Ordering) (hswap : ∀ t u, f u t = (f t u).swap) :
    ∀ xs ys, lexCmp f ys xs = (lexCmp f xs ys).swap := by
  intro xs
  induction xs with
  | nil =>
      intro ys
      cases ys <;> rfl
  | cons x xs ih =>
      intro ys
      cases ys with
      | nil => rfl
      | cons y ys' =>
          rw [lexCmp, lexCmp, hswap x y]
          cases f x y with
          | eq => simpa using ih ys'
          | lt => rfl
          | gt => rfl

/-- Lists comparing equal compare identically against every third list. -/
theorem lexCmp_eq_congr (f : NTok → NTok → Ordering)
    (hcong : ∀ t u, f t u = .eq → ∀ v, f t v = f u v) :
    ∀ xs ys, lexCmp f xs ys = .eq → ∀ zs, lexCmp f xs zs = lexCmp f ys zs := by
  intro xs
  induction xs with
  | nil =>
      intro ys h zs
      cases ys with
      | nil => rfl
      | cons y ys' => simp [lexCmp] at h
  | cons x xs ih =>
      intro ys h zs
      cases ys with
      | nil => simp [lexCmp] at h
      | cons y ys' =>
          rw [lexCmp] at h
          cases hxy : f x y with
          | lt => rw [hxy] at h; simp at h
          | gt => rw [hxy] at h; simp at h
          | eq =>
              rw [hxy] at h
              cases zs with
              | nil => rfl
              | cons z zs' =>
                  rw [lexCmp, lexCmp, hcong x y hxy z]
                  cases f y z with
                  | eq => exact ih ys' h zs'
                  | lt => rfl
                  | gt => rfl

/-- Lexicographic token comparison is transitive for strict results. -/
theorem lexCmp_lt_trans (f : NTok → NTok → Ordering)
    (hcong : ∀ t u, f t u = .eq → ∀ v, f t v = f u v)
    (hswap : ∀ t u, f u t = (f t u).swap)
    (hlt : ∀ t u v, f t u = .lt → f u v = .lt → f t v = .lt) :
    ∀ xs ys zs, lexCmp f xs ys = .lt → lexCmp f ys zs = .lt → lexCmp f xs zs = .lt := by
  have hcongr : ∀ t u v, f u v = .eq → f t u = f t v := by
    intro t u v h
    rw [hswap u t, hcong u v h t, ← hswap v t]
  intro xs
  induction xs with
  | nil =>
      intro ys zs h1 h2
      cases ys with
      | nil => simp [lexCmp] at h1
      | cons y ys' =>
          cases zs with
          | nil => simp [lexCmp] at h2
          | cons z zs' => rfl
  | cons x xs ih =>
      intro ys zs h1 h2
      cases ys with
      | nil => simp [lexCmp] at h1
      | cons y ys' =>
          cases zs with
          | nil => simp [lexCmp] at h2
          | cons z zs' =>
              rw [lexCmp] at h1 h2 ⊢
              cases hxy : f x y with
              | lt =>
                  cases hyz : f y z with
                  | lt => rw [hlt x y z hxy hyz]
                  | eq => rw [← hcongr x y z hyz, hxy]
                  | gt => rw [hyz] at h2; simp at h2
              | eq =>
                  rw [hxy] at h1
                  cases hyz : f y z with
                  | lt => rw [hcong x y hxy z, hyz]
                  | eq =>
                      have hxz : f x z = .eq := by rw [hcong x y hxy z, hyz]
                      rw [hxz]
                      rw [hyz] at h2
                      exact ih ys' zs' h1 h2
                  | gt => rw [hyz] at h2; simp at h2
              | gt => rw [hxy] at h1; simp at h1

/-- Unfolding natural_sort_chars when both heads are digits. -/
theorem natural_sort_chars_cons_digit (a b : Char) (as bs : List Char)
    (hab : (isAsciiDigit a && isAsciiDigit b) = true) :
    natural_sort_chars (a :: as) (b :: bs) =
      match compare (extract_number (a :: as)).1 (extract_number (b :: bs)).1 with
      | .eq => natural_sort_chars (extract_number (a :: as)).2 (extract_number (b :: bs)).2
      | o => o := by
  rw [natural_sort_chars, if_pos hab]

/-- Unfolding natural_sort_chars when the heads are not both digits. -/
theorem natural_sort_chars_cons_nondigit (a b : Char) (as bs : List Char)
    (hab : ¬(isAsciiDigit a && isAsciiDigit b) = true) :
    natural_sort_chars (a :: as) (b :: bs) =
      match cmpChar a b with
      | .eq => natural_sort_chars as bs
      | o => o := by
  rw [natural_sort_chars, if_neg hab]

/-- natural_sort coincides with lexicographic comparison of the token
forms: maximal digit runs compare by saturated value, other characters by
code point, with the mixed digit-against-non-digit case decided by whether
the non-digit's code point is below the digit block. -/
theorem ns_eq : ∀ x y : List Char,
    natural_sort_chars x y = lexCmp cmpTok (tokenize x) (tokenize y) := by
  intro x y
  induction x, y using natural_sort_chars.induct with
  | case1 =>
      rw [natural_sort_chars]
      rfl
  | case2 b bs =>
      rw [natural_sort_chars]
      cases htok : tokenize (b :: bs) with
      | nil => exact absurd htok (tokenize_cons_ne_nil b bs)
      | cons t ts => rfl
  | case3 a as =>
      rw [natural_sort_chars]
      cases htok : tokenize (a :: as) with
      | nil => exact absurd htok (tokenize_cons_ne_nil a as)
      | cons t ts => rfl
  | case4 a as b bs hab ra rb hcmp ih =>
      obtain ⟨ha, hb⟩ := Bool.and_eq_true _ _ |>.mp hab
      have hra : ra = extract_number (a :: as) := rfl
      have hrb : rb = extract_number (b :: bs) := rfl
      rw [hra, hrb] at hcmp ih
      rw [natural_sort_chars_cons_digit a b as bs hab, hcmp]
      rw [tokenize_cons_digit a as ha, tokenize_cons_digit b bs hb, lexCmp]
      simp only [cmpTok, hcmp]
      exact ih
  | case5 a as b bs hab ra rb hne =>
      obtain ⟨ha, hb⟩ := Bool.and_eq_true _ _ |>.mp hab
      have hra : ra = extract_number (a :: as) := rfl
      have hrb : rb = extract_number (b :: bs) := rfl
      rw [hra, hrb] at hne
      rw [natural_sort_chars_cons_digit a b as bs hab]
      rw [tokenize_cons_digit a as ha, tokenize_cons_digit b bs hb, lexCmp]
      simp only [cmpTok]
  | case6 a as b bs hab hch ih =>
      have hnat : a.toNat = b.toNat := Nat.compare_eq_eq.mp hch
      have hdig : isAsciiDigit a = isAsciiDigit b := by
        simp [isAsciiDigit, hnat]
      cases ha : isAsciiDigit a with
      | true =>
          exfalso
          rw [ha] at hdig
          rw [ha, ← hdig] at hab
          simp at hab
      | false =>
          have hb : isAsciiDigit b = false := by rw [← hdig, ha]
          rw [natural_sort_chars_cons_nondigit a b as bs hab, hch]
          rw [tokenize_cons_nondigit a as ha, tokenize_cons_nondigit b bs hb, lexCmp]
          simp only [cmpTok]
          rw [hch]
          exact ih
  | case7 a as b bs hab hch =>
      rw [natural_sort_chars_cons_nondigit a b as bs hab]
      cases ha : isAsciiDigit a with
      | true =>
          cases hb : isAsciiDigit b with
          | true => exact absurd (by rw [ha, hb]; rfl) hab
          | false =>
              rw [tokenize_cons_digit a as ha, tokenize_cons_nondigit b bs hb, lexCmp]
              simp only [cmpTok]
              have hadig := (isAsciiDigit_iff a).mp ha
              have hbnot : ¬(48 ≤ b.toNat ∧ b.toNat ≤ 57) := by
                intro hcon
                rw [(isAsciiDigit_iff b).mpr hcon] at hb
                exact Bool.noConfusion hb
              by_cases hblow : b.toNat < 48
              · rw [if_pos hblow, cmpChar, Nat.compare_eq_gt.mpr (by omega)]
              · rw [if_neg hblow, cmpChar, Nat.compare_eq_lt.mpr (by omega)]
      | false =>
          cases hb : isAsciiDigit b with
          | true =>
              rw [tokenize_cons_nondigit a as ha, tokenize_cons_digit b bs hb, lexCmp]
              simp only [cmpTok]
              have hbdig := (isAsciiDigit_iff b).mp hb
              have hanot : ¬(48 ≤ a.toNat ∧ a.toNat ≤ 57) := by
                intro hcon
                rw [(isAsciiDigit_iff a).mpr hcon] at ha
                exact Bool.noConfusion ha
              by_cases halow : a.toNat < 48
              · rw [if_pos halow, cmpChar, Nat.compare_eq_lt.mpr (by omega)]
              · rw [if_neg halow, cmpChar, Nat.compare_eq_gt.mpr (by omega)]
          | false =>
              rw [tokenize_cons_nondigit a as ha, tokenize_cons_nondigit b bs hb, lexCmp]
              simp only [cmpTok]

/-- Evaluation form of natural_sort through the token comparison. -/
theorem natural_sort_eval (a b : String) :
    natural_sort a b = lexCmp cmpTok (tokenize a.data) (tokenize b.data) := by
  rw [natural_sort]
  exact ns_eq a.data b.data

/-- C4 (amended): natural_sort orders "file2" before "file10" while plain
byte-lexical comparison orders "file10" before "file2"; it is reflexive
(so natural_sort("a","a") is Equal), argument-swap consistent, and
transitive for both strict and equal results — a valid total preorder on
any input set, including mixed digit/non-digit names.  It is however not
antisymmetric: strings that differ only in leading zeros of a digit run
compare Equal (see the counterexample theorem). -/
theorem natural_sort_total_preorder :
    natural_sort "file2" "file10" = .lt ∧
    osstr_cmp "file10" "file2" = .lt ∧
    (∀ a, natural_sort a a = .eq) ∧
    (∀ a b, natural_sort b a = (natural_sort a b).swap) ∧
    (∀ a b c, natural_sort a b = .lt → natural_sort b c = .lt → natural_sort a c = .lt) ∧
    (∀ a b c, natural_sort a b = .eq → natural_sort b c = .eq → natural_sort a c = .eq) := by
  refine ⟨(natural_sort_eval _ _).trans rfl, rfl, ?_, ?_, ?_, ?_⟩
  · intro a
    rw [natural_sort_eval]
    exact lexCmp_refl cmpTok cmpTok_refl _
  · intro a b
    rw [natural_sort_eval, natural_sort_eval]
    exact lexCmp_swap cmpTok cmpTok_swap _ _
  · intro a b c h1 h2
    rw [natural_sort_eval] at h1 h2 ⊢
    exact lexCmp_lt_trans cmpTok cmpTok_eq_congr cmpTok_swap cmpTok_lt_trans _ _ _ h1 h2
  · intro a b c h1 h2
    rw [natural_sort_eval] at h1 h2 ⊢
    rw [lexCmp_eq_congr cmpTok cmpTok_eq_congr _ _ h1 _]
    exact h2

/-- Witness for C4: transitivity applied at concrete inputs. -/
theorem natural_sort_total_preorder_witness :
    natural_sort "a1" "a2" = .lt ∧ natural_sort "a2" "a10" = .lt ∧
    natural_sort "a1" "a10" = .lt :=
  ⟨(natural_sort_eval "a1" "a2").trans rfl, (natural_sort_eval "a2" "a10").trans rfl,
    natural_sort_total_preorder.2.2.2.2.1 "a1" "a2" "a10"
      ((natural_sort_eval "a1" "a2").trans rfl) ((natural_sort_eval "a2" "a10").trans rfl)⟩

/-- Counterexample for C4 as stated: natural_sort is not antisymmetric —
the distinct strings "file01" and "file1" compare Equal. -/
theorem natural_sort_not_antisymmetric :
    natural_sort "file01" "file1" = .eq ∧ ("file01" : String) ≠ "file1" :=
  ⟨(natural_sort_eval "file01" "file1").trans rfl, by decide⟩

/-- Membership in the nodes of a forest. -/
theorem mem_nodesList (n : Entry) : ∀ l : List Entry, n ∈ nodesList l ↔ ∃ e ∈ l, n ∈ e.nodes := by
  intro l
  induction l with
  | nil => simp [nodesList]
  | cons e es ih => simp [nodesList, ih]

/-- The head of Entry.nodes is the entry itself, followed by the forest of
its children. -/
theorem nodes_withChildren (e : Entry) (l : List Entry) :
    (e.withChildren l).nodes = e.withChildren l :: nodesList l := by
  cases e
  rfl

/-- A string with a nonempty prefix appended to anything is nonempty. -/
theorem prefixed_ne_empty (a b : String) (c : Char) (cs : List Char) (ha : a.data = c :: cs) :
    a ++ b ≠ "" := by
  intro h
  have hd := congrArg String.data h
  rw [String.data_append, ha] at hd
  simp at hd

/-- A cache-directory hit requires cache exclusion to be enabled. -/
theorem has_cachedir_tag_true (cfg : Config) (t : Bool) (h : has_cachedir_tag cfg t = true) :
    cfg.exclude_caches = true := by
  rw [has_cachedir_tag] at h
  cases hc : cfg.exclude_caches with
  | true => rfl
  | false => rw [hc] at h; simp at h

/-- get_entry_type only produces the four object classifications. -/
theorem get_entry_type_cases (m : Meta) :
    get_entry_type m = .Directory ∨ get_entry_type m = .File ∨
    get_entry_type m = .Symlink ∨ get_entry_type m = .Special := by
  rw [get_entry_type]
  cases m.kind <;> simp

/-- Branch evaluation of scan_entry: unreadable metadata yields an Error
leaf (size, blocks, device, inode, nlink all zero) and bumps the error
counter. -/
theorem scan_entry_meta_error (ctx : ScanContext) (path nm e : String) (ch : List FSObj)
    (rde : Option String) (tag : Bool) (st : ScanState) :
    scan_entry ctx path (.mk nm (.error e) ch rde tag) st =
      (Entry.mk st.nextId .Error nm 0 0 0 0 0 none
        (some ("Cannot read metadata: " ++ e)) [],
       ⟨st.nextId + 1,
        ⟨st.stats.total_entries, st.stats.directories, st.stats.files, st.stats.errors + 1,
         st.stats.total_size, st.stats.total_blocks⟩,
        st.hardlinks⟩) := rfl

/-- Branch evaluation of scan_entry: an object on another filesystem
becomes a zero-weight OtherFs leaf. -/
theorem scan_entry_otherfs (ctx : ScanContext) (path nm : String) (m : Meta) (ch : List FSObj)
    (rde : Option String) (tag : Bool) (st : ScanState)
    (h1 : is_different_filesystem ctx m.dev = true) :
    scan_entry ctx path (.mk nm (.ok m) ch rde tag) st =
      (Entry.mk st.nextId .OtherFs nm 0 0 m.dev m.ino m.nlink none none [],
       ⟨st.nextId + 1, st.stats, st.hardlinks⟩) := by
  rw [scan_entry.eq_def]
  simp [h1, Entry.new]

/-- Branch evaluation of scan_entry: a kernel-filesystem path becomes a
zero-weight KernelFs leaf. -/
theorem scan_entry_kernfs (ctx : ScanContext) (path nm : String) (m : Meta) (ch : List FSObj)
    (rde : Option String) (tag : Bool) (st : ScanState)
    (h1 : ¬is_different_filesystem ctx m.dev = true)
    (h2 : is_kernel_filesystem ctx.cfg path = true) :
    scan_entry ctx path (.mk nm (.ok m) ch rde tag) st =
      (Entry.mk st.nextId .KernelFs nm 0 0 m.dev m.ino m.nlink none none [],
       ⟨st.nextId + 1, st.stats, st.hardlinks⟩) := by
  rw [scan_entry.eq_def]
  simp [h1, h2, Entry.new]

/-- Branch evaluation of scan_entry: a pattern-excluded path becomes a
zero-weight Excluded leaf. -/
theorem scan_entry_excluded (ctx : ScanContext) (path nm : String) (m : Meta) (ch : List FSObj)
    (rde : Option String) (tag : Bool) (st : ScanState)
    (h1 : ¬is_different_filesystem ctx m.dev = true)
    (h2 : ¬is_kernel_filesystem ctx.cfg path = true)
    (h3 : is_excluded_by_pattern ctx.cfg path = true) :
    scan_entry ctx path (.mk nm (.ok m) ch rde tag) st =
      (Entry.mk st.nextId .Excluded nm 0 0 m.dev m.ino m.nlink none none [],
       ⟨st.nextId + 1, st.stats, st.hardlinks⟩) := by
  rw [scan_entry.eq_def]
  simp [h1, h2, h3, Entry.new]

/-- Branch evaluation of scan_entry: a directory with a cache tag keeps its
metadata metrics but is reclassified Excluded with no recursion. -/
theorem scan_entry_dir_cachedir (ctx : ScanContext) (path nm : String) (m : Meta)
    (ch : List FSObj) (rde : Option String) (tag : Bool) (st : ScanState)
    (h1 : ¬is_different_filesystem ctx m.dev = true)
    (h2 : ¬is_kernel_filesystem ctx.cfg path = true)
    (h3 : ¬is_excluded_by_pattern ctx.cfg path = true)
    (hdir : get_entry_type m = .Directory)
    (hcache : has_cachedir_tag ctx.cfg tag = true) :
    scan_entry ctx path (.mk nm (.ok m) ch rde tag) st =
      ((if ctx.cfg.extended then
          (Entry.new st.nextId .Directory nm m.len m.blocks m.dev m.ino m.nlink).withExtended
            (some ⟨m.mtime, some m.uid, some m.gid, some m.mode⟩)
        else
          Entry.new st.nextId .Directory nm m.len m.blocks m.dev m.ino m.nlink).withType .Excluded,
       ⟨st.nextId + 1,
        ⟨st.stats.total_entries + 1, st.stats.directories + 1, st.stats.files, st.stats.errors,
         st.stats.total_size + m.len, st.stats.total_blocks + m.blocks⟩,
        st.hardlinks⟩) := by
  rw [scan_entry.eq_def]
  simp [h1, h2, h3, hdir, hcache]

/-- Branch evaluation of scan_entry: a directory whose listing fails keeps
its metadata metrics, is reclassified Error with the failure reason, has no
children, and bumps the error counter. -/
theorem scan_entry_dir_readerr (ctx : ScanContext) (path nm e : String) (m : Meta)
    (ch : List FSObj) (tag : Bool) (st : ScanState)
    (h1 : ¬is_different_filesystem ctx m.dev = true)
    (h2 : ¬is_kernel_filesystem ctx.cfg path = true)
    (h3 : ¬is_excluded_by_pattern ctx.cfg path = true)
    (hdir : get_entry_type m = .Directory)
    (hnocache : ¬has_cachedir_tag ctx.cfg tag = true) :
    scan_entry ctx path (.mk nm (.ok m) ch (some e) tag) st =
      (((if ctx.cfg.extended then
          (Entry.new st.nextId .Directory nm m.len m.blocks m.dev m.ino m.nlink).withExtended
            (some ⟨m.mtime, some m.uid, some m.gid, some m.mode⟩)
        else
          Entry.new st.nextId .Directory nm m.len m.blocks m.dev m.ino m.nlink).withError
            (some ("Error scanning directory: " ++ e))).withType .Error,
       ⟨st.nextId + 1,
        ⟨st.stats.total_entries + 1, st.stats.directories + 1, st.stats.files, st.stats.errors + 1,
         st.stats.total_size + m.len, st.stats.total_blocks + m.blocks⟩,
        st.hardlinks⟩) := by
  rw [scan_entry.eq_def]
  simp [h1, h2, h3, hdir, hnocache]

/-- Branch evaluation of scan_entry: a readable directory recurses into its
listing from the post-classification state and attaches the sorted
children. -/
theorem scan_entry_dir_recurse (ctx : ScanContext) (path nm : String) (m : Meta)
    (ch : List FSObj) (tag : Bool) (st : ScanState)
    (h1 : ¬is_different_filesystem ctx m.dev = true)
    (h2 : ¬is_kernel_filesystem ctx.cfg path = true)
    (h3 : ¬is_excluded_by_pattern ctx.cfg path = true)
    (hdir : get_entry_type m = .Directory)
    (hnocache : ¬has_cachedir_tag ctx.cfg tag = true) :
    scan_entry ctx path (.mk nm (.ok m) ch none tag) st =
      ((if ctx.cfg.extended then
          (Entry.new st.nextId .Directory nm m.len m.blocks m.dev m.ino m.nlink).withExtended
            (some ⟨m.mtime, some m.uid, some m.gid, some m.mode⟩)
        else
          Entry.new st.nextId .Directory nm m.len m.blocks m.dev m.ino m.nlink).withChildren
          (sort_entries ctx.cfg
            (scan_children ctx path ch
              ⟨st.nextId + 1,
               ⟨st.stats.total_entries + 1, st.stats.directories + 1, st.stats.files,
                st.stats.errors, st.stats.total_size + m.len, st.stats.total_blocks + m.blocks⟩,
               st.hardlinks⟩).1),
       (scan_children ctx path ch
          ⟨st.nextId + 1,
           ⟨st.stats.total_entries + 1, st.stats.directories + 1, st.stats.files,
            st.stats.errors, st.stats.total_size + m.len, st.stats.total_blocks + m.blocks⟩,
           st.hardlinks⟩).2) := by
  rw [scan_entry.eq_def]
  simp [h1, h2, h3, hdir, hnocache]

/-- Branch evaluation of scan_entry: a non-directory object that does not
take the hardlink branch (nlink not above one, or not a File) keeps its
natural classification and leaves the registry unchanged. -/
theorem scan_entry_nondir_nolink (ctx : ScanContext) (path nm : String) (m : Meta)
    (ch : List FSObj) (rde : Option String) (tag : Bool) (st : ScanState)
    (h1 : ¬is_different_filesystem ctx m.dev = true)
    (h2 : ¬is_kernel_filesystem ctx.cfg path = true)
    (h3 : ¬is_excluded_by_pattern ctx.cfg path = true)
    (hnd : ¬get_entry_type m = .Directory)
    (hnl : ¬(1 < m.nlink ∧ get_entry_type m = .File)) :
    scan_entry ctx path (.mk nm (.ok m) ch rde tag) st =
      ((if ctx.cfg.extended then
          (Entry.new st.nextId (get_entry_type m) nm m.len m.blocks m.dev m.ino m.nlink).withExtended
            (some ⟨m.mtime, some m.uid, some m.gid, some m.mode⟩)
        else Entry.new st.nextId (get_entry_type m) nm m.len m.blocks m.dev m.ino m.nlink),
       ⟨st.nextId + 1,
        ⟨st.stats.total_entries + 1, st.stats.directories, st.stats.files + 1, st.stats.errors,
         st.stats.total_size + m.len, st.stats.total_blocks + m.blocks⟩,
        st.hardlinks⟩) := by
  rw [scan_entry.eq_def]
  simp [h1, h2, h3, hnd, hnl]

/-- Branch evaluation of scan_entry: first sighting of a hard-linked file's
(device, inode) key registers it with total_links = nlink and
links_in_tree = 1, and the entry keeps its File classification. -/
theorem scan_entry_nondir_first (ctx : ScanContext) (path nm : String) (m : Meta)
    (ch : List FSObj) (rde : Option String) (tag : Bool) (st : ScanState)
    (h1 : ¬is_different_filesystem ctx m.dev = true)
    (h2 : ¬is_kernel_filesystem ctx.cfg path = true)
    (h3 : ¬is_excluded_by_pattern ctx.cfg path = true)
    (hnd : ¬get_entry_type m = .Directory)
    (hnl : 1 < m.nlink ∧ get_entry_type m = .File)
    (hmg : hmGet st.hardlinks ⟨m.dev, m.ino⟩ = none) :
    scan_entry ctx path (.mk nm (.ok m) ch rde tag) st =
      ((if ctx.cfg.extended then
          (Entry.new st.nextId (get_entry_type m) nm m.len m.blocks m.dev m.ino m.nlink).withExtended
            (some ⟨m.mtime, some m.uid, some m.gid, some m.mode⟩)
        else Entry.new st.nextId (get_entry_type m) nm m.len m.blocks m.dev m.ino m.nlink),
       ⟨st.nextId + 1,
        ⟨st.stats.total_entries + 1, st.stats.directories, st.stats.files + 1, st.stats.errors,
         st.stats.total_size + m.len, st.stats.total_blocks + m.blocks⟩,
        hmInsert st.hardlinks ⟨m.dev, m.ino⟩
          ⟨m.nlink, 1, m.len, m.blocks,
           Entry.new st.nextId (get_entry_type m) nm m.len m.blocks m.dev m.ino m.nlink⟩⟩) := by
  rw [scan_entry.eq_def]
  simp [h1, h2, h3, hnd, hnl, hmg]

/-- Branch evaluation of scan_entry: a later sighting of a registered
(device, inode) key reclassifies the entry Hardlink and increments the
registry's links_in_tree counter. -/
theorem scan_entry_nondir_dup (ctx : ScanContext) (path nm : String) (m : Meta)
    (ch : List FSObj) (rde : Option String) (tag : Bool) (st : ScanState) (info : HardlinkInfo)
    (h1 : ¬is_different_filesystem ctx m.dev = true)
    (h2 : ¬is_kernel_filesystem ctx.cfg path = true)
    (h3 : ¬is_excluded_by_pattern ctx.cfg path = true)
    (hnd : ¬get_entry_type m = .Directory)
    (hnl : 1 < m.nlink ∧ get_entry_type m = .File)
    (hmg : hmGet st.hardlinks ⟨m.dev, m.ino⟩ = some info) :
    scan_entry ctx path (.mk nm (.ok m) ch rde tag) st =
      ((if ctx.cfg.extended then
          ((Entry.new st.nextId (get_entry_type m) nm m.len m.blocks m.dev m.ino m.nlink).withType
            .Hardlink).withExtended (some ⟨m.mtime, some m.uid, some m.gid, some m.mode⟩)
        else
          (Entry.new st.nextId (get_entry_type m) nm m.len m.blocks m.dev m.ino m.nlink).withType
            .Hardlink),
       ⟨st.nextId + 1,
        ⟨st.stats.total_entries + 1, st.stats.directories, st.stats.files + 1, st.stats.errors,
         st.stats.total_size + m.len, st.stats.total_blocks + m.blocks⟩,
        hmBump st.hardlinks ⟨m.dev, m.ino⟩⟩) := by
  rw [scan_entry.eq_def]
  simp [h1, h2, h3, hnd, hnl, hmg]

/-- The per-mount-point test inside is_kernel_filesystem holds exactly for
the mount point itself or an extension of it across a '/' boundary. -/
theorem kernfs_one_iff (p path : String) :
    (p.data.isPrefixOf path.data &&
      (path.data.length == p.data.length || path.data[p.data.length]? == some '/')) = true ↔
    (path = p ∨ ∃ suffix : String, path = p ++ "/" ++ suffix) := by
  constructor
  · intro h
    obtain ⟨hpre, hrest⟩ := Bool.and_eq_true _ _ |>.mp h
    obtain ⟨t, ht⟩ := List.isPrefixOf_iff_prefix.mp hpre
    rcases Bool.or_eq_true _ _ |>.mp hrest with hlen | hsl
    · left
      have hlen' : path.data.length = p.data.length := eq_of_beq hlen
      have hlt : (p.data ++ t).length = p.data.length := by rw [ht, hlen']
      rw [List.length_append] at hlt
      have ht0 : t = [] := List.length_eq_zero.mp (by omega)
      apply String.ext
      rw [← ht, ht0, List.append_nil]
    · have hsl' : path.data[p.data.length]? = some '/' := eq_of_beq hsl
      rw [← ht, List.getElem?_append_right (le_refl _), Nat.sub_self] at hsl'
      cases t with
      | nil => simp at hsl'
      | cons c t' =>
          simp at hsl'
          right
          refine ⟨String.mk t', ?_⟩
          apply String.ext
          rw [String.data_append, String.data_append, ← ht, hsl']
          show _ = p.data ++ ['/'] ++ t'
          rw [List.append_assoc, List.singleton_append]
  · intro h
    rcases h with rfl | ⟨s, rfl⟩
    · rw [List.isPrefixOf_iff_prefix.mpr (List.prefix_refl _)]
      simp
    · have hdata : (p ++ "/" ++ s).data = p.data ++ '/' :: s.data := by
        rw [String.data_append, String.data_append]
        show p.data ++ ['/'] ++ s.data = _
        rw [List.append_assoc, List.singleton_append]
      rw [hdata]
      have hpre : p.data.isPrefixOf (p.data ++ '/' :: s.data) = true :=
        List.isPrefixOf_iff_prefix.mpr ⟨'/' :: s.data, rfl⟩
      rw [hpre]
      have hget : (p.data ++ '/' :: s.data)[p.data.length]? = some '/' := by
        rw [List.getElem?_append_right (le_refl _), Nat.sub_self]
        exact List.getElem?_cons_zero
      rw [hget]
      simp

/-- C7: when kernel-pseudo-filesystem exclusion is enabled, a path is
recognized as a kernel filesystem if and only if it equals one of the eight
fixed pseudo mount points or extends one of them at a '/' path boundary;
a path like "/procfoo" that merely begins with "/proc" without a path
separator is not recognized. -/
theorem kernel_filesystem_iff :
    (∀ (cfg : Config) (path : String), cfg.exclude_kernfs = true →
      (is_kernel_filesystem cfg path = true ↔
        ∃ p ∈ PSEUDO_FS, path = p ∨ ∃ suffix : String, path = p ++ "/" ++ suffix)) ∧
    (∀ cfg : Config, cfg.exclude_kernfs = true →
      is_kernel_filesystem cfg "/procfoo" = false) := by
  constructor
  · intro cfg path h
    rw [is_kernel_filesystem, h, Bool.not_true, if_neg Bool.false_ne_true, List.any_eq_true]
    exact exists_congr fun p => and_congr_right fun _ => kernfs_one_iff p path
  · intro cfg h
    rw [is_kernel_filesystem, h]
    decide

/-- Witness for C7: with exclusion enabled, "/proc/self" is recognized
through the mount point "/proc", and "/procfoo" is not. -/
theorem kernel_filesystem_iff_witness :
    cfgKernOn.exclude_kernfs = true ∧
    is_kernel_filesystem cfgKernOn "/proc/self" = true ∧
    is_kernel_filesystem cfgKernOn "/procfoo" = false :=
  ⟨rfl,
    (kernel_filesystem_iff.1 cfgKernOn "/proc/self" rfl).mpr
      ⟨"/proc", by decide, Or.inr ⟨"self", rfl⟩⟩,
    kernel_filesystem_iff.2 cfgKernOn rfl⟩

/-- The own contribution of one node in Entry::shared_size equals the
claim's criterion applied to that node. -/
theorem shared_contrib_size (hm : HardlinkMap) (i : Nat) (t : EntryType) (n : String)
    (s b d ino l : Nat) (ex : Option ExtendedInfo) (er : Option String) (ch : List Entry) :
    (if 1 < l then
      match hmGet hm ⟨d, ino⟩ with
      | some info => if info.links_in_tree < info.total_links then s else 0
      | none => 0
    else 0) =
      (if is_shared_node hm (Entry.mk i t n s b d ino l ex er ch) = true then s else 0) := by
  by_cases hl : 1 < l
  · rw [if_pos hl]
    cases hmg : hmGet hm ⟨d, ino⟩ with
    | none => simp [is_shared_node, hmg, hl]
    | some info =>
        by_cases hlt : info.links_in_tree < info.total_links
        · simp [is_shared_node, hmg, hl, hlt]
        · simp [is_shared_node, hmg, hl, hlt]
  · rw [if_neg hl]
    simp [is_shared_node, hl]

/-- The own contribution of one node in Entry::shared_blocks equals the
claim's criterion applied to that node. -/
theorem shared_contrib_blocks (hm : HardlinkMap) (i : Nat) (t : EntryType) (n : String)
    (s b d ino l : Nat) (ex : Option ExtendedInfo) (er : Option String) (ch : List Entry) :
    (if 1 < l then
      match hmGet hm ⟨d, ino⟩ with
      | some info => if info.links_in_tree < info.total_links then b else 0
      | none => 0
    else 0) =
      (if is_shared_node hm (Entry.mk i t n s b d ino l ex er ch) = true then b else 0) := by
  by_cases hl : 1 < l
  · rw [if_pos hl]
    cases hmg : hmGet hm ⟨d, ino⟩ with
    | none => simp [is_shared_node, hmg, hl]
    | some info =>
        by_cases hlt : info.links_in_tree < info.total_links
        · simp [is_shared_node, hmg, hl, hlt]
        · simp [is_shared_node, hmg, hl, hlt]
  · rw [if_neg hl]
    simp [is_shared_node, hl]

/-- C8: for every entry and every hardlink-registry state, shared_size
equals the sum over all subtree nodes whose nlink exceeds 1 and whose
(device, inode) key the registry holds with total_links strictly greater
than links_in_tree, of the node's own size — and shared_blocks is the
analogous sum of blocks; a node whose total_links equals its links_in_tree
contributes nothing (the criterion is the strict comparison). -/
theorem shared_totals_spec :
    ∀ (hm : HardlinkMap) (e : Entry),
      e.shared_size hm = shared_size_spec hm e ∧ e.shared_blocks hm = shared_blocks_spec hm e := by
  intro hm e
  constructor
  · refine Entry.nodes.induct
      (fun e => Entry.shared_size hm e = shared_size_spec hm e)
      (fun l => sharedSizeList hm l = (((nodesList l).filter (is_shared_node hm)).map Entry.size).sum)
      ?_ ?_ ?_ e
    · intro i t n s b d ino l ex er ch ih
      rw [Entry.shared_size, shared_size_spec, Entry.nodes, List.filter_cons, ih,
        shared_contrib_size hm i t n s b d ino l ex er ch]
      by_cases hp : is_shared_node hm (Entry.mk i t n s b d ino l ex er ch) = true
      · rw [if_pos hp, if_pos hp]
        simp
      · rw [if_neg hp, if_neg hp]
        simp
    · rfl
    · intro e es ih1 ih2
      rw [sharedSizeList, ih1, ih2, nodesList, List.filter_append, List.map_append,
        List.sum_append, shared_size_spec]
  · refine Entry.nodes.induct
      (fun e => Entry.shared_blocks hm e = shared_blocks_spec hm e)
      (fun l => sharedBlocksList hm l = (((nodesList l).filter (is_shared_node hm)).map Entry.blocks).sum)
      ?_ ?_ ?_ e
    · intro i t n s b d ino l ex er ch ih
      rw [Entry.shared_blocks, shared_blocks_spec, Entry.nodes, List.filter_cons, ih,
        shared_contrib_blocks hm i t n s b d ino l ex er ch]
      by_cases hp : is_shared_node hm (Entry.mk i t n s b d ino l ex er ch) = true
      · rw [if_pos hp, if_pos hp]
        simp
      · rw [if_neg hp, if_neg hp]
        simp
    · rfl
    · intro e es ih1 ih2
      rw [sharedBlocksList, ih1, ih2, nodesList, List.filter_append, List.map_append,
        List.sum_append, shared_blocks_spec]

/-- C6: converting an entry tree with to_serializable and back with
from_serializable reproduces the tree exactly: every node keeps its
entry_type, name, size, blocks, device, inode, nlink, extended metadata,
error message and its children in the same order, recursively (names here
are valid text, for which `to_string_lossy` is the identity). -/
theorem round_trip_serializable :
    ∀ e : Entry, Entry.from_serializable e.to_serializable = e := by
  intro e
  refine Entry.to_serializable.induct
    (fun e => Entry.from_serializable e.to_serializable = e)
    (fun l => fromSerializableList (toSerializableList l) = l)
    ?_ ?_ ?_ e
  · intro i t n s b d ino l ex er ch ih
    rw [Entry.to_serializable, Entry.from_serializable, ih]
  · rfl
  · intro e es ih1 ih2
    rw [toSerializableList, fromSerializableList, ih1, ih2]

/-- Every node of a scanned tree satisfies the classification invariants:
OtherFs and KernelFs nodes are zero-weight childless leaves; Excluded nodes
are childless and zero-weight unless produced by cache-directory
reclassification (which requires exclude_caches); Error nodes are childless
with a present nonempty message. -/
theorem scan_nodes_inv (ctx : ScanContext) :
    ∀ (path : String) (o : FSObj) (st : ScanState),
      ∀ n ∈ (scan_entry ctx path o st).1.nodes,
        ((n.entry_type = .OtherFs ∨ n.entry_type = .KernelFs) →
            n.size = 0 ∧ n.blocks = 0 ∧ n.children = []) ∧
        (n.entry_type = .Excluded →
            n.children = [] ∧ (ctx.cfg.exclude_caches = false → n.size = 0 ∧ n.blocks = 0)) ∧
        (n.entry_type = .Error →
            n.children = [] ∧ ∃ msg, n.error = some msg ∧ msg ≠ "") := by
  intro path o st0
  refine scan_entry.induct ctx
    (fun path o _ =>
      ∀ st : ScanState, ∀ n ∈ (scan_entry ctx path o st).1.nodes,
        ((n.entry_type = .OtherFs ∨ n.entry_type = .KernelFs) →
            n.size = 0 ∧ n.blocks = 0 ∧ n.children = []) ∧
        (n.entry_type = .Excluded →
            n.children = [] ∧ (ctx.cfg.exclude_caches = false → n.size = 0 ∧ n.blocks = 0)) ∧
        (n.entry_type = .Error →
            n.children = [] ∧ ∃ msg, n.error = some msg ∧ msg ≠ ""))
    (fun dirPath objs _ =>
      ∀ st : ScanState, ∀ e ∈ (scan_children ctx dirPath objs st).1, ∀ n ∈ e.nodes,
        ((n.entry_type = .OtherFs ∨ n.entry_type = .KernelFs) →
            n.size = 0 ∧ n.blocks = 0 ∧ n.children = []) ∧
        (n.entry_type = .Excluded →
            n.children = [] ∧ (ctx.cfg.exclude_caches = false → n.size = 0 ∧ n.blocks = 0)) ∧
        (n.entry_type = .Error →
            n.children = [] ∧ ∃ msg, n.error = some msg ∧ msg ≠ ""))
    ?_ ?_ ?_ ?_ ?_ ?_ ?_ ?_ ?_ ?_ ?_ path o st0 st0
  · intro path _ nm children rde tag e st n hn
    rw [scan_entry_meta_error] at hn
    simp only [Entry.nodes, nodesList] at hn
    simp only [List.mem_singleton] at hn
    subst hn
    refine ⟨?_, ?_, ?_⟩
    · rintro (h | h) <;> simp at h
    · intro h; simp at h
    · intro _
      exact ⟨rfl, ⟨"Cannot read metadata: " ++ e, rfl, prefixed_ne_empty _ _ 'C' _ rfl⟩⟩
  · intro path _ nm children rde tag m h1 st n hn
    rw [scan_entry_otherfs _ _ _ _ _ _ _ _ h1] at hn
    simp only [Entry.nodes, nodesList] at hn
    simp only [List.mem_singleton] at hn
    subst hn
    refine ⟨fun _ => ⟨rfl, rfl, rfl⟩, ?_, ?_⟩
    · intro h; simp at h
    · intro h; simp at h
  · intro path _ nm children rde tag m h1 h2 st n hn
    rw [scan_entry_kernfs _ _ _ _ _ _ _ _ h1 h2] at hn
    simp only [Entry.nodes, nodesList] at hn
    simp only [List.mem_singleton] at hn
    subst hn
    refine ⟨fun _ => ⟨rfl, rfl, rfl⟩, ?_, ?_⟩
    · intro h; simp at h
    · intro h; simp at h
  · intro path _ nm children rde tag m h1 h2 h3 st n hn
    rw [scan_entry_excluded _ _ _ _ _ _ _ _ h1 h2 h3] at hn
    simp only [Entry.nodes, nodesList] at hn
    simp only [List.mem_singleton] at hn
    subst hn
    refine ⟨?_, fun _ => ⟨rfl, fun _ => ⟨rfl, rfl⟩⟩, ?_⟩
    · rintro (h | h) <;> simp at h
    · intro h; simp at h
  · intro path _ nm children rde tag m h1 h2 h3 ft hdir hcache st n hn
    have hdir' : get_entry_type m = .Directory := hdir
    rw [scan_entry_dir_cachedir _ _ _ _ _ _ _ _ h1 h2 h3 hdir' hcache] at hn
    by_cases hx : ctx.cfg.extended = true
    · simp only [hx, eq_self_iff_true, if_true, Entry.new, Entry.withExtended, Entry.withType,
        Entry.nodes, nodesList, List.mem_singleton] at hn
      subst hn
      refine ⟨?_, ?_, ?_⟩
      · rintro (h | h) <;> simp at h
      · intro _
        refine ⟨rfl, fun hoff => ?_⟩
        exact Bool.noConfusion (hoff.symm.trans (has_cachedir_tag_true _ _ hcache))
      · intro h; simp at h
    · simp only [hx, Bool.false_eq_true, if_false, Entry.new, Entry.withType,
        Entry.nodes, nodesList, List.mem_singleton] at hn
      subst hn
      refine ⟨?_, ?_, ?_⟩
      · rintro (h | h) <;> simp at h
      · intro _
        refine ⟨rfl, fun hoff => ?_⟩
        exact Bool.noConfusion (hoff.symm.trans (has_cachedir_tag_true _ _ hcache))
      · intro h; simp at h
  · intro path _ nm children tag m h1 h2 h3 ft hdir hnocache e st n hn
    have hdir' : get_entry_type m = .Directory := hdir
    rw [scan_entry_dir_readerr _ _ _ _ _ _ _ _ h1 h2 h3 hdir' hnocache] at hn
    by_cases hx : ctx.cfg.extended = true
    · simp only [hx, eq_self_iff_true, if_true, Entry.new, Entry.withExtended, Entry.withError,
        Entry.withType, Entry.nodes, nodesList, List.mem_singleton] at hn
      subst hn
      refine ⟨?_, ?_, ?_⟩
      · rintro (h | h) <;> simp at h
      · intro h; simp at h
      · intro _
        exact ⟨rfl, ⟨"Error scanning directory: " ++ e, rfl, prefixed_ne_empty _ _ 'E' _ rfl⟩⟩
    · simp only [hx, Bool.false_eq_true, if_false, Entry.new, Entry.withError, Entry.withType,
        Entry.nodes, nodesList, List.mem_singleton] at hn
      subst hn
      refine ⟨?_, ?_, ?_⟩
      · rintro (h | h) <;> simp at h
      · intro h; simp at h
      · intro _
        exact ⟨rfl, ⟨"Error scanning directory: " ++ e, rfl, prefixed_ne_empty _ _ 'E' _ rfl⟩⟩
  · intro path _ nm children tag m h1 h2 h3 ft st1 entry0 hlRes st2 hdir st3 hnocache ih st n hn
    have hdir' : get_entry_type m = .Directory := hdir
    rw [scan_entry_dir_recurse _ _ _ _ _ _ _ h1 h2 h3 hdir' hnocache] at hn
    rw [nodes_withChildren] at hn
    rcases List.mem_cons.mp hn with hn | hn
    · subst hn
      by_cases hx : ctx.cfg.extended = true
      · refine ⟨?_, ?_, ?_⟩ <;> · intro h; simp [hx] at h
      · refine ⟨?_, ?_, ?_⟩ <;> · intro h; simp [hx] at h
    · rw [mem_nodesList] at hn
      obtain ⟨e, he, hne⟩ := hn
      rw [sort_entries, List.mem_mergeSort] at he
      exact ih _ e he n hne
  · intro path _ nm children rde tag m h1 h2 h3 ft hnd st n hn
    have hnd' : ¬get_entry_type m = .Directory := hnd
    by_cases hl : 1 < m.nlink ∧ get_entry_type m = .File
    · cases hmg : hmGet st.hardlinks ⟨m.dev, m.ino⟩ with
      | some info =>
          rw [scan_entry_nondir_dup _ _ _ _ _ _ _ _ info h1 h2 h3 hnd' hl hmg] at hn
          by_cases hx : ctx.cfg.extended = true
          · simp only [hx, eq_self_iff_true, if_true, Entry.new, Entry.withType,
              Entry.withExtended, Entry.nodes, nodesList, List.mem_singleton] at hn
            subst hn
            refine ⟨?_, ?_, ?_⟩ <;> · intro h; simp at h
          · simp only [hx, Bool.false_eq_true, if_false, Entry.new, Entry.withType,
              Entry.nodes, nodesList, List.mem_singleton] at hn
            subst hn
            refine ⟨?_, ?_, ?_⟩ <;> · intro h; simp at h
      | none =>
          rw [scan_entry_nondir_first _ _ _ _ _ _ _ _ h1 h2 h3 hnd' hl hmg] at hn
          by_cases hx : ctx.cfg.extended = true
          · simp only [hx, eq_self_iff_true, if_true, Entry.new, Entry.withExtended,
              Entry.nodes, nodesList, List.mem_singleton] at hn
            subst hn
            refine ⟨?_, ?_, ?_⟩ <;> · intro h; rw [hl.2] at h; simp at h
          · simp only [hx, Bool.false_eq_true, if_false, Entry.new,
              Entry.nodes, nodesList, List.mem_singleton] at hn
            subst hn
            refine ⟨?_, ?_, ?_⟩ <;> · intro h; rw [hl.2] at h; simp at h
    · rw [scan_entry_nondir_nolink _ _ _ _ _ _ _ _ h1 h2 h3 hnd' hl] at hn
      rcases get_entry_type_cases m with hq | hq | hq | hq
      · exact absurd hq hnd'
      all_goals
        by_cases hx : ctx.cfg.extended = true
        · simp only [hx, eq_self_iff_true, if_true, Entry.new, Entry.withExtended,
            Entry.nodes, nodesList, List.mem_singleton] at hn
          subst hn
          refine ⟨?_, ?_, ?_⟩ <;> · intro h; rw [hq] at h; simp at h
        · simp only [hx, Bool.false_eq_true, if_false, Entry.new,
            Entry.nodes, nodesList, List.mem_singleton] at hn
          subst hn
          refine ⟨?_, ?_, ?_⟩ <;> · intro h; rw [hq] at h; simp at h
  · intro dirPath _ st e he
    simp only [scan_children] at he
    simp at he
  · intro dirPath _ o os hinc r1 ih1 ih2 st e he
    simp only [scan_children, if_pos hinc] at he
    rcases List.mem_cons.mp he with he | he
    · subst he
      exact ih1 st
    · exact ih2 _ e he
  · intro dirPath _ o os hninc ih st e he
    simp only [scan_children, if_neg hninc] at he
    exact ih st e he

/-- A successful scan_directory call is a scan_entry run from the initial
state, with the root device captured only in same-fs mode. -/
theorem scan_directory_ok_elim (path : String) (cfg : Config) (root : FSObj) (e : Entry)
    (st : ScanState) (h : scan_directory path cfg root = .ok (e, st)) :
    ∃ rd : Option Nat, scan_entry ⟨cfg, rd⟩ path root initState = (e, st) := by
  rw [scan_directory, scan_directory_with_progress] at h
  cases hs : cfg.same_fs with
  | true =>
      rw [hs] at h
      simp only [if_true] at h
      cases hm : root.meta with
      | error e2 =>
          rw [hm] at h
          simp at h
      | ok m =>
          rw [hm] at h
          simp only [Except.ok.injEq] at h
          exact ⟨some m.dev, h⟩
  | false =>
      rw [hs] at h
      simp only [Bool.false_eq_true, if_false, Except.ok.injEq] at h
      exact ⟨none, h⟩

/-- C1 (amended): in every tree produced by a scan, a node classified
OtherFs or KernelFs has size 0, blocks 0 and an empty children list, and a
node classified Excluded has an empty children list; when cache-directory
exclusion is disabled an Excluded node also has size 0 and blocks 0.  (The
claim's stronger form is false: a directory reclassified Excluded because a
cache marker was found keeps its metadata size and blocks — see the
counterexample theorem.) -/
theorem scan_zero_weight_nodes :
    ∀ (path : String) (cfg : Config) (root : FSObj) (e : Entry) (st : ScanState),
      scan_directory path cfg root = .ok (e, st) →
      ∀ n ∈ e.nodes,
        ((n.entry_type = .OtherFs ∨ n.entry_type = .KernelFs) →
            n.size = 0 ∧ n.blocks = 0 ∧ n.children = []) ∧
        (n.entry_type = .Excluded →
            n.children = [] ∧ (cfg.exclude_caches = false → n.size = 0 ∧ n.blocks = 0)) := by
  intro path cfg root e st h n hn
  obtain ⟨rd, hrd⟩ := scan_directory_ok_elim path cfg root e st h
  have h1 : (scan_entry ⟨cfg, rd⟩ path root initState).1 = e := by rw [hrd]
  have := scan_nodes_inv ⟨cfg, rd⟩ path root initState n (h1.symm ▸ hn)
  exact ⟨this.1, this.2.1⟩

/-- Counterexample for C1 as stated: with cache exclusion enabled, scanning
a directory that carries a CACHEDIR.TAG yields an Excluded node that keeps
its real size 4096 and blocks 8 instead of being zero-weight. -/
theorem cachedir_excluded_keeps_size :
    cfgCacheOn.exclude_caches = true ∧
    scan_directory "/cache" cfgCacheOn fsCacheDir =
      .ok (Entry.mk 1 .Excluded "cache" 4096 8 7 1 2 none none [],
           ⟨2, ⟨1, 1, 0, 0, 4096, 8⟩, []⟩) ∧
    (4096 : Nat) ≠ 0 ∧ (8 : Nat) ≠ 0 :=
  ⟨rfl, rfl, by decide, by decide⟩

/-- Witness for C1: a scan under kernel-filesystem exclusion produces a
KernelFs root node, and the invariants hold at it. -/
theorem scan_zero_weight_nodes_witness :
    scan_directory "/proc" cfgKernOn fsProcDir =
      .ok (Entry.mk 1 .KernelFs "proc" 0 0 7 1 2 none none [],
           ⟨2, ⟨0, 0, 0, 0, 0, 0⟩, []⟩) ∧
    (((Entry.mk 1 .KernelFs "proc" 0 0 7 1 2 none none []).entry_type = .OtherFs ∨
        (Entry.mk 1 .KernelFs "proc" 0 0 7 1 2 none none []).entry_type = .KernelFs) →
      (Entry.mk 1 .KernelFs "proc" 0 0 7 1 2 none none []).size = 0 ∧
      (Entry.mk 1 .KernelFs "proc" 0 0 7 1 2 none none []).blocks = 0 ∧
      (Entry.mk 1 .KernelFs "proc" 0 0 7 1 2 none none []).children = []) :=
  ⟨rfl,
    (scan_zero_weight_nodes "/proc" cfgKernOn fsProcDir
      (Entry.mk 1 .KernelFs "proc" 0 0 7 1 2 none none [])
      ⟨2, ⟨0, 0, 0, 0, 0, 0⟩, []⟩ rfl
      (Entry.mk 1 .KernelFs "proc" 0 0 7 1 2 none none []) (List.Mem.head _)).1⟩

/-- C2 (amended): in every tree produced by a scan, a node classified Error
has an empty children list and a present, non-empty error message.  (The
claim's stronger form is false: a directory reclassified Error after a
listing failure keeps its metadata size and blocks instead of zeroing them —
see the counterexample theorem; a metadata-failure Error leaf does have
size 0 and blocks 0.) -/
theorem scan_error_nodes :
    ∀ (path : String) (cfg : Config) (root : FSObj) (e : Entry) (st : ScanState),
      scan_directory path cfg root = .ok (e, st) →
      ∀ n ∈ e.nodes,
        n.entry_type = .Error →
          n.children = [] ∧ ∃ msg, n.error = some msg ∧ msg ≠ "" := by
  intro path cfg root e st h n hn
  obtain ⟨rd, hrd⟩ := scan_directory_ok_elim path cfg root e st h
  have h1 : (scan_entry ⟨cfg, rd⟩ path root initState).1 = e := by rw [hrd]
  exact (scan_nodes_inv ⟨cfg, rd⟩ path root initState n (h1.symm ▸ hn)).2.2

/-- Counterexample for C2 as stated: a directory whose listing fails is
reclassified Error but keeps its metadata size 4096 and blocks 8 instead of
having size and blocks zero. -/
theorem listing_failure_error_keeps_size :
    scan_directory "/locked" cfgAllOff fsBadListDir =
      .ok (Entry.mk 1 .Error "locked" 4096 8 7 1 2 none
            (some "Error scanning directory: Permission denied (os error 13)") [],
           ⟨2, ⟨1, 1, 0, 1, 4096, 8⟩, []⟩) ∧
    (4096 : Nat) ≠ 0 ∧ (8 : Nat) ≠ 0 :=
  ⟨rfl, by decide, by decide⟩

/-- Witness for C2: a metadata-failure Error leaf has no children and a
non-empty message. -/
theorem scan_error_nodes_witness :
    scan_directory "/gone" cfgAllOff fsBadMeta =
      .ok (Entry.mk 1 .Error "gone" 0 0 0 0 0 none
            (some "Cannot read metadata: No such file or directory (os error 2)") [],
           ⟨2, ⟨0, 0, 0, 1, 0, 0⟩, []⟩) ∧
    ((Entry.mk 1 .Error "gone" 0 0 0 0 0 none
        (some "Cannot read metadata: No such file or directory (os error 2)") []).children = [] ∧
      ∃ msg,
        (Entry.mk 1 .Error "gone" 0 0 0 0 0 none
          (some "Cannot read metadata: No such file or directory (os error 2)") []).error =
            some msg ∧ msg ≠ "") :=
  ⟨rfl,
    scan_error_nodes "/gone" cfgAllOff fsBadMeta
      (Entry.mk 1 .Error "gone" 0 0 0 0 0 none
        (some "Cannot read metadata: No such file or directory (os error 2)") [])
      ⟨2, ⟨0, 0, 0, 1, 0, 0⟩, []⟩ rfl
      (Entry.mk 1 .Error "gone" 0 0 0 0 0 none
        (some "Cannot read metadata: No such file or directory (os error 2)") [])
      (List.Mem.head _) rfl⟩

/-- C3 (amended): scan_directory returns an error result if and only if the
same-filesystem restriction is enabled and the root's metadata cannot be
read.  In particular a metadata or listing failure on any non-root child
never produces an error return, and — contrary to the claim as stated —
with same-fs disabled an unreadable root also returns a successful tree
whose root node is classified Error (see the counterexample theorem).
Configuration setup failures (invalid glob patterns) are outside this
model, which carries patterns as abstract predicates. -/
theorem scan_directory_error_iff :
    ∀ (path : String) (cfg : Config) (root : FSObj),
      (∃ msg, scan_directory path cfg root = .error msg) ↔
        (cfg.same_fs = true ∧ ∃ e, root.meta = .error e) := by
  intro path cfg root
  rw [scan_directory, scan_directory_with_progress]
  cases hs : cfg.same_fs with
  | true =>
      simp only [if_true]
      cases hm : root.meta with
      | error e2 => simp
      | ok m => simp
  | false =>
      simp only [Bool.false_eq_true, if_false]
      simp

/-- Counterexample for C3 as stated: with same-fs mode off, a root whose
metadata cannot be read does not make the scan fail — the call returns a
successful result whose root node is an Error leaf. -/
theorem scan_root_meta_failure_returns_ok :
    cfgAllOff.same_fs = false ∧
    fsBadMeta.meta = Except.error "No such file or directory (os error 2)" ∧
    scan_directory "/gone2" cfgAllOff fsBadMeta =
      .ok (Entry.mk 1 .Error "gone" 0 0 0 0 0 none
            (some "Cannot read metadata: No such file or directory (os error 2)") [],
           ⟨2, ⟨0, 0, 0, 1, 0, 0⟩, []⟩) :=
  ⟨rfl, rfl, rfl⟩

/-- Witness for C3: with same-fs mode on and an unreadable root, the scan
does return an error. -/
theorem scan_directory_error_iff_witness :
    (cfgSameFs.same_fs = true ∧ ∃ e, fsBadMeta.meta = Except.error e) ∧
    (∃ msg, scan_directory "/gone" cfgSameFs fsBadMeta = .error msg) :=
  ⟨⟨rfl, ⟨"No such file or directory (os error 2)", rfl⟩⟩,
    (scan_directory_error_iff "/gone" cfgSameFs fsBadMeta).mpr
      ⟨rfl, ⟨"No such file or directory (os error 2)", rfl⟩⟩⟩

/-- C10: the comparator of Entry::sort_children compares the Name column by
raw byte order for every pair of siblings of equal directory status,
whatever the order and dirs-first flags — it has no natural-order mode at
all — while the scanner's sort_entries comparator applies natural_sort to
the Name column when the natural-sort flag is enabled.  Consequently
sorting an already-built tree through Entry::sort_children never applies
natural ordering: on names "file2" and "file10" the model comparator
returns the byte order Greater while the scanner's comparator under
natural sorting returns Less. -/
theorem sort_children_no_natural_order :
    (∀ (order : SortOrder) (df : Bool) (a b : Entry),
      a.entry_type.is_directory = b.entry_type.is_directory →
        entry_cmp .Name order df a b = applySortOrder order (osstr_cmp a.name b.name)) ∧
    (∀ cfg : Config, cfg.sort_col = .Name → cfg.sort_natural = true →
      ∀ a b : Entry, a.entry_type.is_directory = b.entry_type.is_directory →
        scanner_cmp cfg a b = applySortOrder cfg.sort_order (natural_sort a.name b.name)) ∧
    entry_cmp .Name .Asc false eFile2 eFile10 = .gt ∧
    scanner_cmp cfgNatural eFile2 eFile10 = .lt := by
  refine ⟨?_, ?_, rfl, ?_⟩
  · intro order df a b hdir
    rw [entry_cmp, if_neg]
    intro hcon
    exact hcon.2 hdir
  · intro cfg hcol hnat a b hdir
    rw [scanner_cmp, if_neg]
    · rw [hcol]
      simp only [hnat, eq_self_iff_true, if_true]
    · intro hcon
      exact hcon.2 hdir
  · show natural_sort "file2" "file10" = .lt
    exact (natural_sort_eval _ _).trans rfl

/-- Witness for C10: the model comparator applied at entries of equal
directory status with dirs-first enabled still compares names by byte
order. -/
theorem sort_children_no_natural_order_witness :
    eFile2.entry_type.is_directory = eFile10.entry_type.is_directory ∧
    entry_cmp .Name .Desc true eFile2 eFile10 =
      applySortOrder .Desc (osstr_cmp eFile2.name eFile10.name) :=
  ⟨rfl, sort_children_no_natural_order.1 .Desc true eFile2 eFile10 rfl⟩

/-- Lookup after inserting the same key. -/
theorem hmGet_insert (m : HardlinkMap) (k : HardlinkKey) (v : HardlinkInfo) :
    hmGet (hmInsert m k v) k = some v := by
  rw [hmInsert, hmGet, if_pos rfl]

/-- Lookup of a different key is unaffected by an insertion. -/
theorem hmGet_insert_ne (m : HardlinkMap) (k' k : HardlinkKey) (v : HardlinkInfo)
    (hk : ¬k' = k) : hmGet (hmInsert m k' v) k = hmGet m k := by
  rw [hmInsert, hmGet, if_neg hk]

/-- Lookup after bumping the same key increments its links_in_tree. -/
theorem hmGet_bump (m : HardlinkMap) (k : HardlinkKey) :
    hmGet (hmBump m k) k =
      (hmGet m k).map fun info => { info with links_in_tree := info.links_in_tree + 1 } := by
  induction m with
  | nil => rfl
  | cons p rest ih =>
      obtain ⟨k', v⟩ := p
      by_cases hk : k' = k
      · rw [hmBump, if_pos hk, hmGet, if_pos hk, hmGet, if_pos hk]
        rfl
      · rw [hmBump, if_neg hk, hmGet, if_neg hk, hmGet, if_neg hk]
        exact ih

/-- Lookup of a different key is unaffected by a bump. -/
theorem hmGet_bump_ne (m : HardlinkMap) (k' k : HardlinkKey) (hk : ¬k' = k) :
    hmGet (hmBump m k') k = hmGet m k := by
  induction m with
  | nil => rfl
  | cons p rest ih =>
      obtain ⟨k'', v⟩ := p
      by_cases hk2 : k'' = k'
      · rw [hmBump, if_pos hk2, hmGet, hmGet]
        subst hk2
        rw [if_neg hk, if_neg hk]
      · rw [hmBump, if_neg hk2, hmGet, hmGet]
        by_cases hk3 : k'' = k
        · rw [if_pos hk3, if_pos hk3]
        · rw [if_neg hk3, if_neg hk3]
          exact ih

/-- With kernel-filesystem exclusion disabled, nothing tests as a kernel
filesystem. -/
theorem kernfs_off (cfg : Config) (path : String) (h : cfg.exclude_kernfs = false) :
    is_kernel_filesystem cfg path = false := by
  rw [is_kernel_filesystem, h]
  rfl

/-- With no exclude patterns, nothing is excluded by pattern. -/
theorem excl_off (cfg : Config) (path : String) (h : cfg.exclude_patterns = []) :
    is_excluded_by_pattern cfg path = false := by
  rw [is_excluded_by_pattern, h]
  rfl

/-- With the same-filesystem restriction disabled, no device is considered
different. -/
theorem samefs_off (ctx : ScanContext) (device : Nat) (h : ctx.cfg.same_fs = false) :
    is_different_filesystem ctx device = false := by
  rw [is_different_filesystem, h]
  rfl

/-- keyFileCount distributes over list append. -/
theorem keyFileCount_append (k : HardlinkKey) (a b : List Entry) :
    keyFileCount k (a ++ b) = keyFileCount k a + keyFileCount k b := by
  simp [keyFileCount, List.filter_append]

/-- keyFileCount of one node's subtree splits into the node's own
contribution and its children's forest. -/
theorem keyFileCount_nodes (k : HardlinkKey) (i : Nat) (t : EntryType) (nm : String)
    (s b d ino l : Nat) (ex : Option ExtendedInfo) (er : Option String) (ch : List Entry) :
    keyFileCount k (Entry.mk i t nm s b d ino l ex er ch).nodes =
      (if d = k.device ∧ ino = k.inode ∧ t = .File then 1 else 0) +
        keyFileCount k (nodesList ch) := by
  rw [Entry.nodes, keyFileCount, List.filter_cons]
  by_cases hp : d = k.device ∧ ino = k.inode ∧ t = .File
  · rw [if_pos (by simpa using hp), if_pos hp]
    simp [keyFileCount]
    omega
  · rw [if_neg (by simpa using hp), if_neg hp]
    simp [keyFileCount]

/-- The forest of nodes of a permuted list of trees has the same
keyFileCount. -/
theorem keyFileCount_nodesList_perm (k : HardlinkKey) (l l' : List Entry)
    (h : l.Perm l') : keyFileCount k (nodesList l) = keyFileCount k (nodesList l') := by
  induction h with
  | nil => rfl
  | cons x h ih =>
      rw [nodesList, nodesList, keyFileCount_append, keyFileCount_append, ih]
  | swap x y l =>
      rw [nodesList, nodesList, nodesList, nodesList, keyFileCount_append,
        keyFileCount_append, keyFileCount_append, keyFileCount_append]
      omega
  | trans h1 h2 ih1 ih2 => rw [ih1, ih2]

/-- keyFileCount over a cons. -/
theorem keyFileCount_cons (k : HardlinkKey) (x : Entry) (l : List Entry) :
    keyFileCount k (x :: l) =
      (if x.device = k.device ∧ x.inode = k.inode ∧ x.entry_type = .File then 1 else 0) +
        keyFileCount k l := by
  rw [keyFileCount, List.filter_cons]
  by_cases hp : x.device = k.device ∧ x.inode = k.inode ∧ x.entry_type = .File
  · rw [if_pos (by simpa using hp), if_pos hp]
    simp [keyFileCount]
    omega
  · rw [if_neg (by simpa using hp), if_neg hp]
    simp [keyFileCount]

/-- Elimination form of the key-consistency hypothesis at one object. -/
theorem keyConsistent_elim (k : HardlinkKey) (nm : String) (m : Meta) (ch : List FSObj)
    (rde : Option String) (tag : Bool)
    (hco : keyConsistentObj k (.mk nm (.ok m) ch rde tag) = true)
    (hd : m.dev = k.device) (hi : m.ino = k.inode) :
    get_entry_type m = .File ∧ 1 < m.nlink := by
  rw [keyConsistentObj] at hco
  simp only [FSObj.meta] at hco
  simp [hd, hi] at hco
  exact hco

/-- Main hardlink-uniqueness invariant of the scan.  Fix a key k whose
objects pass no filter (no same-fs rejection of its device, kernel-fs and
pattern exclusion configured off) and that is not the (0, 0) key of Error
leaves, and a filesystem in which every object carrying k is a regular file
with more than one link.  Then a scan from a state where k is unseen
produces exactly one File-classified node with key k if the key is in the
final registry and none otherwise; a scan from a state where k was already
seen produces none; every node with key k is classified File or Hardlink,
and its presence forces the key into the final registry. -/
theorem hardlink_unique_aux (ctx : ScanContext) (k : HardlinkKey)
    (hdiff : is_different_filesystem ctx k.device = false)
    (hkern : ctx.cfg.exclude_kernfs = false)
    (hexcl : ctx.cfg.exclude_patterns = [])
    (hk0 : ¬(k.device = 0 ∧ k.inode = 0)) :
    ∀ (path : String) (o : FSObj) (st : ScanState),
      (∀ o' ∈ o.objs, keyConsistentObj k o' = true) →
      ((hmGet st.hardlinks k).isSome = true →
          (hmGet (scan_entry ctx path o st).2.hardlinks k).isSome = true ∧
          keyFileCount k (scan_entry ctx path o st).1.nodes = 0) ∧
      ((hmGet st.hardlinks k).isSome = false →
          keyFileCount k (scan_entry ctx path o st).1.nodes =
            (if (hmGet (scan_entry ctx path o st).2.hardlinks k).isSome = true then 1 else 0)) ∧
      (∀ n ∈ (scan_entry ctx path o st).1.nodes,
          n.device = k.device → n.inode = k.inode →
            (n.entry_type = .File ∨ n.entry_type = .Hardlink) ∧
            (hmGet (scan_entry ctx path o st).2.hardlinks k).isSome = true) := by
  intro path0 o0 st0
  refine scan_entry.induct ctx
    (fun path o _ => ∀ st : ScanState,
      (∀ o' ∈ o.objs, keyConsistentObj k o' = true) →
      ((hmGet st.hardlinks k).isSome = true →
          (hmGet (scan_entry ctx path o st).2.hardlinks k).isSome = true ∧
          keyFileCount k (scan_entry ctx path o st).1.nodes = 0) ∧
      ((hmGet st.hardlinks k).isSome = false →
          keyFileCount k (scan_entry ctx path o st).1.nodes =
            (if (hmGet (scan_entry ctx path o st).2.hardlinks k).isSome = true then 1 else 0)) ∧
      (∀ n ∈ (scan_entry ctx path o st).1.nodes,
          n.device = k.device → n.inode = k.inode →
            (n.entry_type = .File ∨ n.entry_type = .Hardlink) ∧
            (hmGet (scan_entry ctx path o st).2.hardlinks k).isSome = true))
    (fun dirPath objs _ => ∀ st : ScanState,
      (∀ o' ∈ objsList objs, keyConsistentObj k o' = true) →
      ((hmGet st.hardlinks k).isSome = true →
          (hmGet (scan_children ctx dirPath objs st).2.hardlinks k).isSome = true ∧
          keyFileCount k (nodesList (scan_children ctx dirPath objs st).1) = 0) ∧
      ((hmGet st.hardlinks k).isSome = false →
          keyFileCount k (nodesList (scan_children ctx dirPath objs st).1) =
            (if (hmGet (scan_children ctx dirPath objs st).2.hardlinks k).isSome = true
             then 1 else 0)) ∧
      (∀ e ∈ (scan_children ctx dirPath objs st).1, ∀ n ∈ e.nodes,
          n.device = k.device → n.inode = k.inode →
            (n.entry_type = .File ∨ n.entry_type = .Hardlink) ∧
            (hmGet (scan_children ctx dirPath objs st).2.hardlinks k).isSome = true))
    ?_ ?_ ?_ ?_ ?_ ?_ ?_ ?_ ?_ ?_ ?_ path0 o0 st0 st0
  · -- metadata failure: Error leaf with the (0,0) key
    intro path _ nm children rde tag e st hco
    rw [scan_entry_meta_error]
    refine ⟨fun hseen => ⟨hseen, ?_⟩, fun hns => ?_, ?_⟩
    · simp [keyFileCount, Entry.nodes, nodesList]
    · simp [keyFileCount, Entry.nodes, nodesList, hns]
    · intro n hn hd hi
      simp only [Entry.nodes, nodesList, List.mem_singleton] at hn
      subst hn
      simp only [Entry.device] at hd
      simp only [Entry.inode] at hi
      exact absurd ⟨hd.symm, hi.symm⟩ hk0
  · -- other filesystem: the key's device is never rejected
    intro path _ nm children rde tag m h1 st hco
    rw [scan_entry_otherfs _ _ _ _ _ _ _ _ h1]
    refine ⟨fun hseen => ⟨hseen, ?_⟩, fun hns => ?_, ?_⟩
    · simp [keyFileCount, Entry.nodes, nodesList]
    · simp [keyFileCount, Entry.nodes, nodesList, hns]
    · intro n hn hd hi
      simp only [Entry.nodes, nodesList, List.mem_singleton] at hn
      subst hn
      simp only [Entry.device] at hd
      rw [hd] at h1
      exact Bool.noConfusion (hdiff.symm.trans h1)
  · -- kernel filesystem: impossible with exclusion off
    intro path _ nm children rde tag m h1 h2 st hco
    exact Bool.noConfusion ((kernfs_off ctx.cfg path hkern).symm.trans h2)
  · -- pattern exclusion: impossible with no patterns
    intro path _ nm children rde tag m h1 h2 h3 st hco
    exact Bool.noConfusion ((excl_off ctx.cfg path hexcl).symm.trans h3)
  · -- cache directory: the node is a Directory object, never a key object
    intro path _ nm children rde tag m h1 h2 h3 ft hdir hcache st hco
    have hdir' : get_entry_type m = .Directory := hdir
    have hhead : keyConsistentObj k (.mk nm (.ok m) children rde tag) = true :=
      hco _ (by rw [FSObj.objs]; exact List.mem_cons_self _ _)
    have hnotkey : ¬(m.dev = k.device ∧ m.ino = k.inode) := by
      intro hkey
      have := (keyConsistent_elim k nm m children rde tag hhead hkey.1 hkey.2).1
      rw [hdir'] at this
      exact EntryType.noConfusion this
    rw [scan_entry_dir_cachedir _ _ _ _ _ _ _ _ h1 h2 h3 hdir' hcache]
    by_cases hx : ctx.cfg.extended = true
    all_goals
      refine ⟨fun hseen => ⟨hseen, ?_⟩, fun hns => ?_, ?_⟩
      · simp [keyFileCount_cons, keyFileCount, Entry.nodes, nodesList, hx, hnotkey]
      · simp [keyFileCount_cons, keyFileCount, Entry.nodes, nodesList, hx, hnotkey, hns]
      · intro n hn hd hi
        simp only [hx, eq_self_iff_true, if_true, Bool.false_eq_true, if_false, Entry.new,
          Entry.withExtended, Entry.withType, Entry.nodes, nodesList, List.mem_singleton] at hn
        subst hn
        simp only [Entry.device] at hd
        simp only [Entry.inode] at hi
        exact absurd ⟨hd, hi⟩ hnotkey
  · -- directory listing failure: again a Directory object
    intro path _ nm children tag m h1 h2 h3 ft hdir hnocache e st hco
    have hdir' : get_entry_type m = .Directory := hdir
    have hhead : keyConsistentObj k (.mk nm (.ok m) children (some e) tag) = true :=
      hco _ (by rw [FSObj.objs]; exact List.mem_cons_self _ _)
    have hnotkey : ¬(m.dev = k.device ∧ m.ino = k.inode) := by
      intro hkey
      have := (keyConsistent_elim k nm m children (some e) tag hhead hkey.1 hkey.2).1
      rw [hdir'] at this
      exact EntryType.noConfusion this
    rw [scan_entry_dir_readerr _ _ _ _ _ _ _ _ h1 h2 h3 hdir' hnocache]
    by_cases hx : ctx.cfg.extended = true
    all_goals
      refine ⟨fun hseen => ⟨hseen, ?_⟩, fun hns => ?_, ?_⟩
      · simp [keyFileCount_cons, keyFileCount, Entry.nodes, nodesList, hx, hnotkey]
      · simp [keyFileCount_cons, keyFileCount, Entry.nodes, nodesList, hx, hnotkey, hns]
      · intro n hn hd hi
        simp only [hx, eq_self_iff_true, if_true, Bool.false_eq_true, if_false, Entry.new,
          Entry.withExtended, Entry.withError, Entry.withType, Entry.nodes, nodesList,
          List.mem_singleton] at hn
        subst hn
        simp only [Entry.device] at hd
        simp only [Entry.inode] at hi
        exact absurd ⟨hd, hi⟩ hnotkey
  · -- directory recursion
    intro path _ nm children tag m h1 h2 h3 ft st1 entry0 hlRes st2 hdir st3 hnocache ih st hco
    have hdir' : get_entry_type m = .Directory := hdir
    have hhead : keyConsistentObj k (.mk nm (.ok m) children none tag) = true :=
      hco _ (by rw [FSObj.objs]; exact List.mem_cons_self _ _)
    have hnotkey : ¬(m.dev = k.device ∧ m.ino = k.inode) := by
      intro hkey
      have := (keyConsistent_elim k nm m children none tag hhead hkey.1 hkey.2).1
      rw [hdir'] at this
      exact EntryType.noConfusion this
    have hcoCh : ∀ o' ∈ objsList children, keyConsistentObj k o' = true := by
      intro o' ho'
      refine hco o' ?_
      rw [FSObj.objs]
      exact List.mem_cons_of_mem _ ho'
    rw [scan_entry_dir_recurse _ _ _ _ _ _ _ h1 h2 h3 hdir' hnocache]
    obtain ⟨ihA, ihB, ihC⟩ :=
      ih (⟨st.nextId + 1,
          ⟨st.stats.total_entries + 1, st.stats.directories + 1, st.stats.files,
           st.stats.errors, st.stats.total_size + m.len, st.stats.total_blocks + m.blocks⟩,
          st.hardlinks⟩ : ScanState) hcoCh
    have hcount : ∀ l : List Entry,
        keyFileCount k (nodesList (sort_entries ctx.cfg l)) = keyFileCount k (nodesList l) :=
      fun l => keyFileCount_nodesList_perm k _ l (List.mergeSort_perm l _)
    have hheadcnt : ∀ (cs : List Entry),
        keyFileCount k
          ((if ctx.cfg.extended = true then
              (Entry.new st.nextId .Directory nm m.len m.blocks m.dev m.ino m.nlink).withExtended
                (some ⟨m.mtime, some m.uid, some m.gid, some m.mode⟩)
            else
              Entry.new st.nextId .Directory nm m.len m.blocks m.dev m.ino m.nlink).withChildren
            cs).nodes = keyFileCount k (nodesList cs) := by
      intro cs
      by_cases hx : ctx.cfg.extended = true
      · simp [hx, Entry.new, Entry.withExtended, Entry.withChildren, keyFileCount_nodes]
      · simp [hx, Entry.new, Entry.withChildren, keyFileCount_nodes]
    refine ⟨fun hseen => ?_, fun hns => ?_, ?_⟩
    · obtain ⟨hA1, hA2⟩ := ihA hseen
      exact ⟨hA1, by rw [hheadcnt, hcount]; exact hA2⟩
    · rw [hheadcnt, hcount]
      exact ihB hns
    · intro n hn hd hi
      rw [nodes_withChildren] at hn
      rcases List.mem_cons.mp hn with hn | hn
      · exfalso
        subst hn
        by_cases hx : ctx.cfg.extended = true
        · simp only [hx, eq_self_iff_true, if_true, Entry.new, Entry.withExtended,
            Entry.withChildren, Entry.device] at hd
          simp only [hx, eq_self_iff_true, if_true, Entry.new, Entry.withExtended,
            Entry.withChildren, Entry.inode] at hi
          exact hnotkey ⟨hd, hi⟩
        · simp only [hx, Bool.false_eq_true, if_false, Entry.new,
            Entry.withChildren, Entry.device] at hd
          simp only [hx, Bool.false_eq_true, if_false, Entry.new,
            Entry.withChildren, Entry.inode] at hi
          exact hnotkey ⟨hd, hi⟩
      · rw [mem_nodesList] at hn
        obtain ⟨e, he, hne⟩ := hn
        rw [sort_entries, List.mem_mergeSort] at he
        exact ihC e he n hne hd hi
  · -- non-directory object
    intro path _ nm children rde tag m h1 h2 h3 ft hnd st hco
    have hnd' : ¬get_entry_type m = .Directory := hnd
    by_cases hkey : m.dev = k.device ∧ m.ino = k.inode
    · have hhead : keyConsistentObj k (.mk nm (.ok m) children rde tag) = true :=
        hco _ (by rw [FSObj.objs]; exact List.mem_cons_self _ _)
      obtain ⟨hft, hnl⟩ := keyConsistent_elim k nm m children rde tag hhead hkey.1 hkey.2
      have hkk : (⟨m.dev, m.ino⟩ : HardlinkKey) = k := by
        rw [hkey.1, hkey.2]
      cases hmg : hmGet st.hardlinks ⟨m.dev, m.ino⟩ with
      | some info =>
          have hseenst : (hmGet st.hardlinks k).isSome = true := by
            rw [← hkk, hmg]
            rfl
          rw [scan_entry_nondir_dup _ _ _ _ _ _ _ _ info h1 h2 h3 hnd' ⟨hnl, hft⟩ hmg]
          have hmap :
              (hmGet (hmBump st.hardlinks ⟨m.dev, m.ino⟩) k).isSome = true := by
            rw [hkk, hmGet_bump, ← hkk, hmg]
            rfl
          refine ⟨fun _ => ⟨hmap, ?_⟩, fun hns => ?_, ?_⟩
          · by_cases hx : ctx.cfg.extended = true <;>
              simp [hx, Entry.new, Entry.withType, Entry.withExtended, Entry.nodes,
                nodesList, keyFileCount]
          · exact absurd hns (by rw [hseenst]; exact fun hcon => Bool.noConfusion hcon)
          · intro n hn hd hi
            by_cases hx : ctx.cfg.extended = true
            · simp only [hx, eq_self_iff_true, if_true, Entry.new, Entry.withType,
                Entry.withExtended, Entry.nodes, nodesList, List.mem_singleton] at hn
              subst hn
              exact ⟨Or.inr rfl, hmap⟩
            · simp only [hx, Bool.false_eq_true, if_false, Entry.new, Entry.withType,
                Entry.nodes, nodesList, List.mem_singleton] at hn
              subst hn
              exact ⟨Or.inr rfl, hmap⟩
      | none =>
          have hseenst : (hmGet st.hardlinks k).isSome = false := by
            rw [← hkk, hmg]
            rfl
          rw [scan_entry_nondir_first _ _ _ _ _ _ _ _ h1 h2 h3 hnd' ⟨hnl, hft⟩ hmg]
          have hmap :
              (hmGet
                (hmInsert st.hardlinks ⟨m.dev, m.ino⟩
                  ⟨m.nlink, 1, m.len, m.blocks,
                   Entry.new st.nextId (get_entry_type m) nm m.len m.blocks m.dev m.ino
                     m.nlink⟩) k).isSome = true := by
            rw [← hkk, hmGet_insert]
            rfl
          refine ⟨fun hseen => ?_, fun _ => ?_, ?_⟩
          · exact absurd hseen (by rw [hseenst]; exact fun hcon => Bool.noConfusion hcon)
          · rw [if_pos hmap]
            by_cases hx : ctx.cfg.extended = true <;>
              simp [hx, Entry.new, Entry.withExtended, Entry.nodes, nodesList,
                keyFileCount, hkey.1, hkey.2, hft]
          · intro n hn hd hi
            by_cases hx : ctx.cfg.extended = true
            · simp only [hx, eq_self_iff_true, if_true, Entry.new, Entry.withExtended,
                Entry.nodes, nodesList, List.mem_singleton] at hn
              subst hn
              exact ⟨Or.inl hft, hmap⟩
            · simp only [hx, Bool.false_eq_true, if_false, Entry.new,
                Entry.nodes, nodesList, List.mem_singleton] at hn
              subst hn
              exact ⟨Or.inl hft, hmap⟩
    · have hkne : ¬(⟨m.dev, m.ino⟩ : HardlinkKey) = k := by
        intro hcon
        exact hkey ⟨congrArg HardlinkKey.device hcon, congrArg HardlinkKey.inode hcon⟩
      by_cases hnl : 1 < m.nlink ∧ get_entry_type m = .File
      · cases hmg : hmGet st.hardlinks ⟨m.dev, m.ino⟩ with
        | some info =>
            rw [scan_entry_nondir_dup _ _ _ _ _ _ _ _ info h1 h2 h3 hnd' hnl hmg]
            have hmap : hmGet (hmBump st.hardlinks ⟨m.dev, m.ino⟩) k = hmGet st.hardlinks k :=
              hmGet_bump_ne _ _ _ hkne
            refine ⟨fun hseen => ⟨by rw [hmap]; exact hseen, ?_⟩, fun hns => ?_, ?_⟩
            · by_cases hx : ctx.cfg.extended = true <;>
                simp [hx, Entry.new, Entry.withType, Entry.withExtended, Entry.nodes,
                  nodesList, keyFileCount]
            · rw [hmap]
              by_cases hx : ctx.cfg.extended = true <;>
                simp [hx, Entry.new, Entry.withType, Entry.withExtended, Entry.nodes,
                  nodesList, keyFileCount, hns]
            · intro n hn hd hi
              exfalso
              by_cases hx : ctx.cfg.extended = true
              · simp only [hx, eq_self_iff_true, if_true, Entry.new, Entry.withType,
                  Entry.withExtended, Entry.nodes, nodesList, List.mem_singleton] at hn
                subst hn
                simp only [Entry.device] at hd
                simp only [Entry.inode] at hi
                exact hkey ⟨hd, hi⟩
              · simp only [hx, Bool.false_eq_true, if_false, Entry.new, Entry.withType,
                  Entry.nodes, nodesList, List.mem_singleton] at hn
                subst hn
                simp only [Entry.device] at hd
                simp only [Entry.inode] at hi
                exact hkey ⟨hd, hi⟩
        | none =>
            rw [scan_entry_nondir_first _ _ _ _ _ _ _ _ h1 h2 h3 hnd' hnl hmg]
            have hmap :
                hmGet
                  (hmInsert st.hardlinks ⟨m.dev, m.ino⟩
                    ⟨m.nlink, 1, m.len, m.blocks,
                     Entry.new st.nextId (get_entry_type m) nm m.len m.blocks m.dev m.ino
                       m.nlink⟩) k = hmGet st.hardlinks k :=
              hmGet_insert_ne _ _ _ _ hkne
            refine ⟨fun hseen => ⟨by rw [hmap]; exact hseen, ?_⟩, fun hns => ?_, ?_⟩
            · by_cases hx : ctx.cfg.extended = true <;>
              · simp [hx, Entry.new, Entry.withExtended, Entry.nodes, nodesList,
                  keyFileCount, hkey]
                intro hd hi
                exact absurd ⟨hd, hi⟩ hkey
            · rw [hmap]
              by_cases hx : ctx.cfg.extended = true <;>
              · simp [hx, Entry.new, Entry.withExtended, Entry.nodes, nodesList,
                  keyFileCount, hkey, hns]
                intro hd hi
                exact absurd ⟨hd, hi⟩ hkey
            · intro n hn hd hi
              exfalso
              by_cases hx : ctx.cfg.extended = true
              · simp only [hx, eq_self_iff_true, if_true, Entry.new, Entry.withExtended,
                  Entry.nodes, nodesList, List.mem_singleton] at hn
                subst hn
                simp only [Entry.device] at hd
                simp only [Entry.inode] at hi
                exact hkey ⟨hd, hi⟩
              · simp only [hx, Bool.false_eq_true, if_false, Entry.new,
                  Entry.nodes, nodesList, List.mem_singleton] at hn
                subst hn
                simp only [Entry.device] at hd
                simp only [Entry.inode] at hi
                exact hkey ⟨hd, hi⟩
      · rw [scan_entry_nondir_nolink _ _ _ _ _ _ _ _ h1 h2 h3 hnd' hnl]
        refine ⟨fun hseen => ⟨hseen, ?_⟩, fun hns => ?_, ?_⟩
        · by_cases hx : ctx.cfg.extended = true <;>
          · simp [hx, Entry.new, Entry.withExtended, Entry.nodes, nodesList,
              keyFileCount, hkey]
            intro hd hi
            exact absurd ⟨hd, hi⟩ hkey
        · by_cases hx : ctx.cfg.extended = true <;>
          · simp [hx, Entry.new, Entry.withExtended, Entry.nodes, nodesList,
              keyFileCount, hkey, hns]
            intro hd hi
            exact absurd ⟨hd, hi⟩ hkey
        · intro n hn hd hi
          exfalso
          by_cases hx : ctx.cfg.extended = true
          · simp only [hx, eq_self_iff_true, if_true, Entry.new, Entry.withExtended,
              Entry.nodes, nodesList, List.mem_singleton] at hn
            subst hn
            simp only [Entry.device] at hd
            simp only [Entry.inode] at hi
            exact hkey ⟨hd, hi⟩
          · simp only [hx, Bool.false_eq_true, if_false, Entry.new,
              Entry.nodes, nodesList, List.mem_singleton] at hn
            subst hn
            simp only [Entry.device] at hd
            simp only [Entry.inode] at hi
            exact hkey ⟨hd, hi⟩
  · -- empty listing
    intro dirPath _ st hco
    refine ⟨fun hseen => ⟨hseen, rfl⟩, fun hns => ?_, ?_⟩
    · rw [scan_children]
      simp [keyFileCount, nodesList, hns]
    · intro e he
      rw [scan_children] at he
      simp at he
  · -- included child followed by the rest
    intro dirPath _ o os hinc r1 ih1 ih2 st hco
    clear r1
    cases o with
    | mk onm ometa och orde otag =>
    have hcoO : ∀ o' ∈ (FSObj.mk onm ometa och orde otag).objs, keyConsistentObj k o' = true := by
      intro o' ho'
      refine hco o' ?_
      rw [objsList]
      exact List.mem_append.mpr (Or.inl ho')
    have hcoOS : ∀ o' ∈ objsList os, keyConsistentObj k o' = true := by
      intro o' ho'
      refine hco o' ?_
      rw [objsList]
      exact List.mem_append.mpr (Or.inr ho')
    obtain ⟨A1, B1, C1⟩ := ih1 st hcoO
    obtain ⟨A2, B2, C2⟩ :=
      ih2 (scan_entry ctx (joinPath dirPath (FSObj.mk onm ometa och orde otag).name)
        (FSObj.mk onm ometa och orde otag) st).2 hcoOS
    have hsc : scan_children ctx dirPath (FSObj.mk onm ometa och orde otag :: os) st =
        ((scan_entry ctx (joinPath dirPath (FSObj.mk onm ometa och orde otag).name)
            (FSObj.mk onm ometa och orde otag) st).1 ::
          (scan_children ctx dirPath os
            (scan_entry ctx (joinPath dirPath (FSObj.mk onm ometa och orde otag).name)
              (FSObj.mk onm ometa och orde otag) st).2).1,
         (scan_children ctx dirPath os
            (scan_entry ctx (joinPath dirPath (FSObj.mk onm ometa och orde otag).name)
              (FSObj.mk onm ometa och orde otag) st).2).2) := by
      rw [scan_children, if_pos hinc]
    have hsc1 : (scan_children ctx dirPath (FSObj.mk onm ometa och orde otag :: os) st).1 =
        (scan_entry ctx (joinPath dirPath (FSObj.mk onm ometa och orde otag).name)
            (FSObj.mk onm ometa och orde otag) st).1 ::
          (scan_children ctx dirPath os
            (scan_entry ctx (joinPath dirPath (FSObj.mk onm ometa och orde otag).name)
              (FSObj.mk onm ometa och orde otag) st).2).1 := by
      rw [hsc]
    have hsc2 : (scan_children ctx dirPath (FSObj.mk onm ometa och orde otag :: os) st).2 =
        (scan_children ctx dirPath os
          (scan_entry ctx (joinPath dirPath (FSObj.mk onm ometa och orde otag).name)
            (FSObj.mk onm ometa och orde otag) st).2).2 := by
      rw [hsc]
    refine ⟨fun hseen => ?_, fun hns => ?_, ?_⟩
    · obtain ⟨hA1, hA2⟩ := A1 hseen
      obtain ⟨hB1, hB2⟩ := A2 hA1
      refine ⟨by rw [hsc2]; exact hB1, ?_⟩
      rw [hsc1, nodesList, keyFileCount_append, hA2, hB2]
    · rw [hsc1, hsc2, nodesList, keyFileCount_append, B1 hns]
      cases hseen1 : (hmGet (scan_entry ctx
          (joinPath dirPath (FSObj.mk onm ometa och orde otag).name)
          (FSObj.mk onm ometa och orde otag) st).2.hardlinks k).isSome with
      | true =>
          obtain ⟨hB1, hB2⟩ := A2 hseen1
          rw [hB2, hB1]
          simp
      | false =>
          rw [B2 hseen1]
          simp
    · intro e he n hne hd hi
      rw [hsc1] at he
      rcases List.mem_cons.mp he with he | he
      · subst he
        obtain ⟨hty, hsome⟩ := C1 n hne hd hi
        refine ⟨hty, ?_⟩
        rw [hsc2]
        exact (A2 hsome).1
      · obtain ⟨hty, hsome⟩ := C2 e he n hne hd hi
        refine ⟨hty, ?_⟩
        rw [hsc2]
        exact hsome
  · -- skipped child
    intro dirPath _ o os hninc ih st hco
    cases o with
    | mk onm ometa och orde otag =>
    have hcoOS : ∀ o' ∈ objsList os, keyConsistentObj k o' = true := by
      intro o' ho'
      refine hco o' ?_
      rw [objsList]
      exact List.mem_append.mpr (Or.inr ho')
    have hsc : scan_children ctx dirPath (FSObj.mk onm ometa och orde otag :: os) st =
        scan_children ctx dirPath os st := by
      rw [scan_children, if_neg hninc]
    rw [hsc]
    exact ih st hcoOS

/-- C5: hardlink resolution.  Mechanism: for a regular file with nlink > 1
that passes the filesystem-boundary, kernel-filesystem and pattern filters,
the first sighting of its (device, inode) key inserts registry state with
total_links equal to the reported nlink and links_in_tree equal to 1 and the
entry keeps the File classification; a later sighting of the same key bumps
links_in_tree by one and reclassifies the entry Hardlink.  Uniqueness: in a
successfully scanned tree (same-fs, kernel-fs and pattern exclusion off, a
key not equal to the (0, 0) key of Error leaves, and a filesystem that is
consistent for that key), every node carrying the key is classified File or
Hardlink, and exactly one of them carries File. -/
theorem hardlink_first_then_unique :
    (∀ (ctx : ScanContext) (path nm : String) (m : Meta) (ch : List FSObj)
        (rde : Option String) (tag : Bool) (st : ScanState),
      is_different_filesystem ctx m.dev = false →
      is_kernel_filesystem ctx.cfg path = false →
      is_excluded_by_pattern ctx.cfg path = false →
      get_entry_type m = .File → 1 < m.nlink →
      (hmGet st.hardlinks ⟨m.dev, m.ino⟩ = none →
          (scan_entry ctx path (.mk nm (.ok m) ch rde tag) st).1.entry_type = .File ∧
          hmGet (scan_entry ctx path (.mk nm (.ok m) ch rde tag) st).2.hardlinks
              ⟨m.dev, m.ino⟩ =
            some ⟨m.nlink, 1, m.len, m.blocks,
              Entry.new st.nextId .File nm m.len m.blocks m.dev m.ino m.nlink⟩) ∧
      (∀ info, hmGet st.hardlinks ⟨m.dev, m.ino⟩ = some info →
          (scan_entry ctx path (.mk nm (.ok m) ch rde tag) st).1.entry_type = .Hardlink ∧
          hmGet (scan_entry ctx path (.mk nm (.ok m) ch rde tag) st).2.hardlinks
              ⟨m.dev, m.ino⟩ =
            some { info with links_in_tree := info.links_in_tree + 1 })) ∧
    (∀ (path : String) (cfg : Config) (root : FSObj) (e : Entry) (st : ScanState)
        (k : HardlinkKey),
      scan_directory path cfg root = .ok (e, st) →
      cfg.same_fs = false → cfg.exclude_kernfs = false → cfg.exclude_patterns = [] →
      ¬(k.device = 0 ∧ k.inode = 0) →
      (∀ o' ∈ root.objs, keyConsistentObj k o' = true) →
      ∀ n ∈ e.nodes, n.device = k.device → n.inode = k.inode →
        (n.entry_type = .File ∨ n.entry_type = .Hardlink) ∧
        keyFileCount k e.nodes = 1) := by
  constructor
  · intro ctx path nm m ch rde tag st h1 h2 h3 hft hnl
    have h1' : ¬is_different_filesystem ctx m.dev = true :=
      fun hc => Bool.noConfusion (h1.symm.trans hc)
    have h2' : ¬is_kernel_filesystem ctx.cfg path = true :=
      fun hc => Bool.noConfusion (h2.symm.trans hc)
    have h3' : ¬is_excluded_by_pattern ctx.cfg path = true :=
      fun hc => Bool.noConfusion (h3.symm.trans hc)
    have hnd : ¬get_entry_type m = .Directory :=
      fun hc => EntryType.noConfusion (hft.symm.trans hc)
    have hl : 1 < m.nlink ∧ get_entry_type m = .File := ⟨hnl, hft⟩
    constructor
    · intro hmg
      rw [scan_entry_nondir_first ctx path nm m ch rde tag st h1' h2' h3' hnd hl hmg]
      constructor
      · by_cases hx : ctx.cfg.extended = true
        · simp [hx, hft]
        · simp [hx, hft]
      · show hmGet (hmInsert st.hardlinks ⟨m.dev, m.ino⟩ _) ⟨m.dev, m.ino⟩ = _
        rw [hmGet_insert, hft]
    · intro info hmg
      rw [scan_entry_nondir_dup ctx path nm m ch rde tag st info h1' h2' h3' hnd hl hmg]
      constructor
      · by_cases hx : ctx.cfg.extended = true
        · simp [hx]
        · simp [hx]
      · show hmGet (hmBump st.hardlinks ⟨m.dev, m.ino⟩) ⟨m.dev, m.ino⟩ = _
        rw [hmGet_bump, hmg]
        rfl
  · intro path cfg root e st k h hs hkern hexcl hk0 hco
    obtain ⟨rd, hrd⟩ := scan_directory_ok_elim path cfg root e st h
    have hdiff : is_different_filesystem ⟨cfg, rd⟩ k.device = false :=
      samefs_off ⟨cfg, rd⟩ k.device hs
    obtain ⟨A, B, C⟩ :=
      hardlink_unique_aux ⟨cfg, rd⟩ k hdiff hkern hexcl hk0 path root initState hco
    have h1 : (scan_entry ⟨cfg, rd⟩ path root initState).1 = e := by rw [hrd]
    intro n hn hd hi
    obtain ⟨hty, hsome⟩ := C n (h1.symm ▸ hn) hd hi
    have hcount := B rfl
    rw [if_pos hsome, h1] at hcount
    exact ⟨hty, hcount⟩

/-- Witness for C5: a single hard-linked file (device 7, inode 42, nlink 2)
scanned from the initial state stays File and is registered with
total_links 2, links_in_tree 1; re-scanning an object with the same key
from the resulting state yields a Hardlink and bumps links_in_tree to 2;
and in the scanned tree the key's File count is exactly one. -/
theorem hardlink_first_then_unique_witness :
    ((scan_entry ⟨cfgAllOff, none⟩ "r/first" fsHard1 initState).1.entry_type = .File ∧
      hmGet (scan_entry ⟨cfgAllOff, none⟩ "r/first" fsHard1 initState).2.hardlinks kHL =
        some ⟨2, 1, 5, 8, Entry.new 1 .File "first" 5 8 7 42 2⟩) ∧
    ((scan_entry ⟨cfgAllOff, none⟩ "r/second" fsHard2 stHard1).1.entry_type = .Hardlink ∧
      hmGet (scan_entry ⟨cfgAllOff, none⟩ "r/second" fsHard2 stHard1).2.hardlinks kHL =
        some ⟨2, 2, 5, 8, entryHard1⟩) ∧
    ((entryHard1.entry_type = .File ∨ entryHard1.entry_type = .Hardlink) ∧
      keyFileCount kHL entryHard1.nodes = 1) :=
  ⟨(hardlink_first_then_unique.1 ⟨cfgAllOff, none⟩ "r/first" "first" metaHardlink []
      none false initState rfl rfl rfl rfl (by decide)).1 rfl,
   (hardlink_first_then_unique.1 ⟨cfgAllOff, none⟩ "r/second" "second" metaHardlink []
      none false stHard1 rfl rfl rfl rfl (by decide)).2 ⟨2, 1, 5, 8, entryHard1⟩ rfl,
   hardlink_first_then_unique.2 "r" cfgAllOff fsHard1 entryHard1 stHard1 kHL rfl rfl rfl
     rfl (by decide)
     (by
       intro o' ho'
       rcases List.mem_singleton.mp ho' with rfl
       rfl)
     entryHard1 (List.Mem.head _) rfl rfl⟩

end Rsdu

